import Mathlib

/-!
Verification of the markproof trust-chain core.

This file shallowly embeds the security-critical parts of the markproof
repository: the manifest data model (src/plugin/manifest.ts, inlined in
src/plugin/builder.ts), the build-time canonicalizer/signer, the runtime
verifier in src/plugin/runtime/bootstrap.js (canonicalizeManifest,
verifyManifest, verifyResource, fetchResource, the main orchestration),
and the bookmarklet trust-anchor assembler (src/plugin/bookmarklet.ts).

Modelling conventions:
- JS strings are Lean `String`s.  The default `Array.prototype.sort`
  comparison on strings (UTF-16 code-unit lexicographic order) is modelled
  by `jsLe` below.
- `JSON.stringify` on the fixed canonical shape
  (version, timestamp, resources, each entry with hash then size)
  is modelled by `renderCanonicalChars`, including its string-escaping
  behaviour (ECMA-262 QuoteJSONString) and decimal rendering of sizes.
  Property enumeration follows ECMA-262 OrdinaryOwnPropertyKeys: canonical
  array-index keys ascending numerically first, then the remaining keys in
  insertion order (`isArrayIndex`, `enumOrder` below).
- SHA-256 is embedded concretely, translated from the repository's own
  pure-JS implementation (`sha256js` in bootstrap.js).
- Ed25519 (`crypto.subtle` sign/verify) is modelled as an abstract
  deterministic signature scheme `EdScheme`; theorems that need
  cryptographic soundness assume the ideal-functionality predicate
  `EdScheme.Ideal`.
- Network and DOM effects are modelled by explicit oracles (`World`) and a
  pure `Outcome` value.
-/

namespace Markproof

/-! ## UTF-16 code units and the JS default string order -/

/-- UTF-16 code units of a character (scalar value), as used by JS strings. -/
def charUtf16 (c : Char) : List Nat :=
  let n := c.toNat
  if n < 65536 then [n]
  else [55296 + (n - 65536) / 1024, 56320 + (n - 65536) % 1024]

/-- UTF-16 code-unit sequence of a string. -/
def utf16Units (s : String) : List Nat :=
  (s.data.map charUtf16).flatten

/-- Lexicographic less-or-equal on code-unit sequences (JS `<=` on strings). -/
def unitsLe : List Nat → List Nat → Bool
  | [], _ => true
  | _ :: _, [] => false
  | a :: as, b :: bs => if a < b then true else if b < a then false else unitsLe as bs

/-- The default JS string order used by `Array.prototype.sort`. -/
def jsLe (a b : String) : Prop := unitsLe (utf16Units a) (utf16Units b) = true

instance : DecidableRel jsLe := fun a b => by unfold jsLe; infer_instance

theorem unitsLe_total (a b : List Nat) : unitsLe a b = true ∨ unitsLe b a = true := by
  induction a generalizing b with
  | nil => left; rfl
  | cons x xs ih =>
    cases b with
    | nil => right; rfl
    | cons y ys =>
      by_cases hxy : x < y
      · left; simp [unitsLe, hxy]
      · by_cases hyx : y < x
        · right; simp [unitsLe, hyx, hxy]
        · have hxy' : x = y := by omega
          subst hxy'
          rcases ih ys with h | h
          · left; simpa [unitsLe] using h
          · right; simpa [unitsLe] using h

theorem unitsLe_trans {a b c : List Nat} (hab : unitsLe a b = true)
    (hbc : unitsLe b c = true) : unitsLe a c = true := by
  induction a generalizing b c with
  | nil => rfl
  | cons x xs ih =>
    cases b with
    | nil => simp [unitsLe] at hab
    | cons y ys =>
      cases c with
      | nil => simp [unitsLe] at hbc
      | cons z zs =>
        by_cases hxy : x < y
        · by_cases hyz : y < z
          · simp [unitsLe, lt_trans hxy hyz]
          · by_cases hzy : z < y
            · simp [unitsLe, hyz, hzy] at hbc
            · have : y = z := by omega
              subst this
              simp [unitsLe, hxy]
        · by_cases hyx : y < x
          · simp [unitsLe, hxy, hyx] at hab
          · have hxy' : x = y := by omega
            subst hxy'
            simp only [unitsLe, lt_irrefl, if_false] at hab
            by_cases hyz : x < z
            · simp [unitsLe, hyz]
            · by_cases hzy : z < x
              · simp [unitsLe, hyz, hzy] at hbc
              · have : x = z := by omega
                subst this
                simp only [unitsLe, lt_irrefl, if_false] at hbc ⊢
                exact ih hab hbc

theorem unitsLe_antisymm {a b : List Nat} (hab : unitsLe a b = true)
    (hba : unitsLe b a = true) : a = b := by
  induction a generalizing b with
  | nil =>
    cases b with
    | nil => rfl
    | cons y ys => simp [unitsLe] at hba
  | cons x xs ih =>
    cases b with
    | nil => simp [unitsLe] at hab
    | cons y ys =>
      by_cases hxy : x < y
      · have hyx : ¬ y < x := by omega
        simp [unitsLe, hxy, hyx] at hba
      · by_cases hyx : y < x
        · simp [unitsLe, hxy, hyx] at hab
        · have hxy' : x = y := by omega
          subst hxy'
          simp only [unitsLe, lt_irrefl, if_false] at hab hba
          rw [ih hab hba]

/-- Scalar values never lie in the surrogate range. -/
theorem char_toNat_valid (c : Char) :
    c.toNat < 55296 ∨ (57343 < c.toNat ∧ c.toNat < 1114112) := c.valid

theorem char_eq_of_toNat_eq {c d : Char} (h : c.toNat = d.toNat) : c = d := by
  have hc : Char.ofNat c.toNat = Char.ofNat d.toNat := congrArg Char.ofNat h
  rwa [Char.ofNat_toNat, Char.ofNat_toNat] at hc

/-- The UTF-16 encoding is a prefix code on characters: the first unit of a
supplementary-character encoding is a high surrogate, which is never a scalar
value, so the head character and the tail are both determined. -/
theorem charUtf16_append_inj {c d : Char} {t₁ t₂ : List Nat}
    (h : charUtf16 c ++ t₁ = charUtf16 d ++ t₂) : c = d ∧ t₁ = t₂ := by
  have va := char_toNat_valid c
  have vb := char_toNat_valid d
  unfold charUtf16 at h
  by_cases hc : c.toNat < 65536 <;> by_cases hd : d.toNat < 65536 <;>
    simp only [hc, hd, if_true, if_false, List.cons_append, List.nil_append,
      List.cons.injEq, if_pos, if_neg] at h
  · exact ⟨char_eq_of_toNat_eq h.1, h.2⟩
  · exact absurd h.1 (by omega)
  · exact absurd h.1 (by omega)
  · refine ⟨char_eq_of_toNat_eq ?_, h.2.2⟩
    have h1 := h.1
    have h2 := h.2.1
    omega

theorem utf16Units_inj : ∀ {l m : List Char},
    (l.map charUtf16).flatten = (m.map charUtf16).flatten → l = m := by
  intro l
  induction l with
  | nil =>
    intro m h
    cases m with
    | nil => rfl
    | cons d ds =>
      simp only [List.map_nil, List.flatten_nil, List.map_cons, List.flatten_cons] at h
      have : charUtf16 d ≠ [] := by
        unfold charUtf16
        by_cases hd : d.toNat < 65536 <;> simp [hd]
      exact absurd h.symm (by simp [this])
  | cons c cs ih =>
    intro m h
    cases m with
    | nil =>
      simp only [List.map_nil, List.flatten_nil, List.map_cons, List.flatten_cons] at h
      have : charUtf16 c ≠ [] := by
        unfold charUtf16
        by_cases hc : c.toNat < 65536 <;> simp [hc]
      exact absurd h (by simp [this])
    | cons d ds =>
      simp only [List.map_cons, List.flatten_cons] at h
      obtain ⟨hcd, htail⟩ := charUtf16_append_inj h
      subst hcd
      exact congrArg (List.cons c) (ih htail)

theorem jsLe_total' (a b : String) : jsLe a b ∨ jsLe b a := unitsLe_total _ _

instance : IsTotal String jsLe := ⟨jsLe_total'⟩

instance : IsTrans String jsLe := ⟨fun _ _ _ hab hbc => unitsLe_trans hab hbc⟩

instance : IsAntisymm String jsLe :=
  ⟨fun a b hab hba => by
    have h := unitsLe_antisymm hab hba
    have h2 : a.data = b.data := utf16Units_inj h
    cases a; cases b; exact congrArg String.mk h2⟩

/-! ## The JSON.stringify model for the canonical manifest shape

`JSON.stringify` is invoked by both canonicalizers on an object of the fixed
shape (version : string, timestamp : string, resources : object of entries
with hash : string and size : number).  The functions below model exactly
that invocation: ECMA-262 string quoting (QuoteJSONString) and decimal
rendering of the non-negative integer sizes. -/

/-- Lowercase hexadecimal digit, as produced by `Number.prototype.toString(16)`. -/
def hexDigitChar (n : Nat) : Char :=
  if n < 10 then Char.ofNat (48 + n) else Char.ofNat (87 + n)

/-- ECMA-262 QuoteJSONString escaping of one character. -/
def escapeChar (c : Char) : List Char :=
  if c = '"' then ['\\', '"']
  else if c = '\\' then ['\\', '\\']
  else if c = Char.ofNat 8 then ['\\', 'b']
  else if c = Char.ofNat 9 then ['\\', 't']
  else if c = Char.ofNat 10 then ['\\', 'n']
  else if c = Char.ofNat 12 then ['\\', 'f']
  else if c = Char.ofNat 13 then ['\\', 'r']
  else if c.toNat < 32 then
    ['\\', 'u', '0', '0', hexDigitChar (c.toNat / 16), hexDigitChar (c.toNat % 16)]
  else [c]

/-- A JSON string literal (quotes included), as a character list. -/
def quoteChars (s : String) : List Char :=
  '"' :: (s.data.map escapeChar).flatten ++ ['"']

/-- Decimal digit characters, fuelled so that the kernel can evaluate it;
`fuel > n` always suffices. -/
def decDigitsAux : Nat → Nat → List Char
  | 0, _ => []
  | fuel + 1, n =>
    if n < 10 then [Char.ofNat (48 + n)]
    else decDigitsAux fuel (n / 10) ++ [Char.ofNat (48 + n % 10)]

/-- Decimal digit characters of a natural number (JS integer `toString`). -/
def decDigits (n : Nat) : List Char := decDigitsAux (n + 1) n

theorem decDigitsAux_irrel : ∀ f₁ f₂ n, n < f₁ → n < f₂ →
    decDigitsAux f₁ n = decDigitsAux f₂ n := by
  intro f₁
  induction f₁ with
  | zero => omega
  | succ f ih =>
    intro f₂ n h₁ h₂
    cases f₂ with
    | zero => omega
    | succ f' =>
      simp only [decDigitsAux]
      by_cases hn : n < 10
      · simp [hn]
      · have hdiv : n / 10 < n := Nat.div_lt_self (by omega) (by omega)
        simp only [hn, if_false]
        rw [ih f' (n / 10) (by omega) (by omega)]

theorem decDigits_base {n : Nat} (hn : n < 10) :
    decDigits n = [Char.ofNat (48 + n)] := by
  simp [decDigits, decDigitsAux, hn]

theorem decDigits_step {n : Nat} (hn : ¬ n < 10) :
    decDigits n = decDigits (n / 10) ++ [Char.ofNat (48 + n % 10)] := by
  have h1 : decDigits n = decDigitsAux n (n / 10) ++ [Char.ofNat (48 + n % 10)] := by
    simp only [decDigits, decDigitsAux, hn, if_false]
  rw [h1, decDigitsAux_irrel n (n / 10 + 1) (n / 10) (by omega) (by omega)]
  rfl

/-- Comma-separated concatenation, as `JSON.stringify` separates the
properties of an object. -/
def joinComma : List (List Char) → List Char
  | [] => []
  | [x] => x
  | x :: y :: xs => x ++ ',' :: joinComma (y :: xs)

/-- One rendered resource entry: a quoted path, a colon, and an object with
hash then size.  The entry object is built with insertion order hash, size
in both code paths, so `JSON.stringify` emits hash before size. -/
def renderEntryChars (e : String × String × Nat) : List Char :=
  quoteChars e.1 ++ ':' :: Char.ofNat 123 :: quoteChars "hash" ++ ':' ::
    quoteChars e.2.1 ++ ',' :: quoteChars "size" ++ ':' ::
    decDigits e.2.2 ++ [Char.ofNat 125]

/-- `JSON.stringify` output for the canonical object
`(version, timestamp, resources)` whose resources object holds `es` in
insertion order. -/
def renderCanonicalChars (v t : String) (es : List (String × String × Nat)) : List Char :=
  Char.ofNat 123 :: quoteChars "version" ++ ':' :: quoteChars v ++ ',' ::
    quoteChars "timestamp" ++ ':' :: quoteChars t ++ ',' ::
    quoteChars "resources" ++ ':' :: Char.ofNat 123 ::
    (joinComma (es.map renderEntryChars) ++ [Char.ofNat 125, Char.ofNat 125])

/-! ## Manifest data model (src/plugin/manifest.ts) -/

/-- `ManifestResource`: hash (algorithm-tagged digest), size (byte length),
optional alternate delivery URLs. -/
structure ManifestResource where
  hash : String
  size : Nat
  urls : Option (List String) := none
deriving DecidableEq, Repr

/-- `Manifest`: the signed unit of trust.  `resources` is a JS object,
modelled as an association list in insertion order with (in well-formed
manifests) distinct keys.  `publicKey` is not in the repository's current
Manifest interface; it models an extra attacker-supplied field that a
fetched JSON manifest may carry — no current code path reads it. -/
structure Manifest where
  version : String
  timestamp : String
  resources : List (String × ManifestResource)
  signature : Option String := none
  publicKey : Option String := none
deriving DecidableEq, Repr

/-- JS property access `manifest.resources[key]` for a key known to be
present (keys are always drawn from `Object.keys(manifest.resources)`). -/
def resLookup (rs : List (String × ManifestResource)) (k : String) : ManifestResource :=
  match rs.lookup k with
  | some r => r
  | none => { hash := "", size := 0 }

/-- The hash/size projection of the entry at `k`, as both canonicalizers
construct it. -/
def canonicalEntry (rs : List (String × ManifestResource)) (k : String) :
    String × String × Nat :=
  (k, (resLookup rs k).hash, (resLookup rs k).size)

/-- `Object.keys(manifest.resources).sort()`. -/
def sortedKeys (m : Manifest) : List String :=
  List.insertionSort jsLe (m.resources.map Prod.fst)

/-! ## JSON.stringify property enumeration order (ECMA-262)

`JSON.stringify` serializes an object's own properties in the order given
by OrdinaryOwnPropertyKeys: properties whose key is a canonical array
index come first, in ascending numeric order, and the remaining
string-keyed properties follow in property creation (insertion) order.
The rebuilt `sortedResources` object in both canonicalizers is therefore
serialized in this order, not in raw insertion order, whenever a resource
path happens to be an integer-like string. -/

/-- Decimal-digit test on a property-key character. -/
def isDigitCh (c : Char) : Bool := 48 ≤ c.toNat && c.toNat ≤ 57

/-- Numeric value of a decimal digit string. -/
def natOfDigits (l : List Char) : Nat :=
  l.foldl (fun a c => a * 10 + (c.toNat - 48)) 0

/-- Canonical array-index property key per ECMA-262: a single digit, or a
digit string with no leading zero whose numeric value is at most
2^32 - 2 (= 4294967294). -/
def isArrayIndex (s : String) : Bool :=
  match s.data with
  | [] => false
  | [c] => isDigitCh c
  | c :: cs => 49 ≤ c.toNat && c.toNat ≤ 57 && cs.all isDigitCh &&
      natOfDigits (c :: cs) ≤ 4294967294

/-- Ascending numeric order on rendered entries keyed by array indices. -/
def numKeyLe (a b : String × String × Nat) : Prop :=
  natOfDigits a.1.data ≤ natOfDigits b.1.data

instance : DecidableRel numKeyLe := fun a b => by unfold numKeyLe; infer_instance

instance : IsTotal (String × String × Nat) numKeyLe :=
  ⟨fun a b => by unfold numKeyLe; exact Nat.le_total _ _⟩

instance : IsTrans (String × String × Nat) numKeyLe :=
  ⟨fun a b c hab hbc => by
    unfold numKeyLe at hab hbc ⊢; exact Nat.le_trans hab hbc⟩

/-- OrdinaryOwnPropertyKeys enumeration of an entry list held in insertion
order: the canonical array-index keys first, ascending numerically, then
the remaining keys in insertion order. -/
def enumOrder (es : List (String × String × Nat)) : List (String × String × Nat) :=
  ((es.filter fun e => isArrayIndex e.1).insertionSort numKeyLe)
    ++ (es.filter fun e => !isArrayIndex e.1)

namespace Builder

/-- Build-time `canonicalizeManifest` (src/plugin/manifest.ts): sort the
resource keys, rebuild a resources object holding exactly hash and size per
key in sorted insertion order, and `JSON.stringify` the
(version, timestamp, resources) object; stringify serializes the rebuilt
object's properties in OrdinaryOwnPropertyKeys order (`enumOrder`). -/
def canonicalizeManifest (m : Manifest) : String :=
  let keys := List.insertionSort jsLe (m.resources.map Prod.fst)
  let entries := keys.map (canonicalEntry m.resources)
  String.mk (renderCanonicalChars m.version m.timestamp (enumOrder entries))

end Builder

namespace Bootstrap

/-- Load-time `canonicalizeManifest` (src/plugin/runtime/bootstrap.js):
start from an empty `canonical.resources`, iterate the sorted keys with a
`for` loop appending hash/size entries, and `JSON.stringify` the canonical
object (insertion order version, timestamp, resources); stringify
serializes the rebuilt resources object's properties in
OrdinaryOwnPropertyKeys order (`enumOrder`). -/
def canonicalizeManifest (m : Manifest) : String :=
  let keys := (m.resources.map Prod.fst).insertionSort jsLe
  let entries := keys.foldl (fun acc key => acc ++ [canonicalEntry m.resources key]) []
  String.mk (renderCanonicalChars m.version m.timestamp (enumOrder entries))

end Bootstrap

theorem foldl_append_singleton_eq_map {α β : Type} (f : α → β) (l : List α) :
    ∀ acc : List β, l.foldl (fun acc k => acc ++ [f k]) acc = acc ++ l.map f := by
  induction l with
  | nil => intro acc; simp
  | cons x xs ih => intro acc; simp [List.foldl_cons, ih]

/-! ## Order-independence of the canonical form -/

/-- The signed projection of a resource entry: path, hash, size.  Field
order, `urls`, `signature` and any key-like extra field are dropped. -/
def resProj (p : String × ManifestResource) : String × String × Nat :=
  (p.1, p.2.hash, p.2.size)

theorem lookup_map_resProj (rs : List (String × ManifestResource)) (k : String) :
    (rs.map resProj).lookup k = (rs.lookup k).map (fun r => (r.hash, r.size)) := by
  induction rs with
  | nil => rfl
  | cons p ps ih =>
    obtain ⟨a, r⟩ := p
    by_cases hk : k = a
    · subst hk; simp [resProj, List.lookup]
    · have hk' : (k == a) = false := beq_eq_false_iff_ne.mpr hk
      simp [resProj, List.lookup, hk', ih]

theorem canonicalEntry_eq_of_lookup_map {rs₁ rs₂ : List (String × ManifestResource)}
    (k : String) (h : (rs₁.map resProj).lookup k = (rs₂.map resProj).lookup k) :
    canonicalEntry rs₁ k = canonicalEntry rs₂ k := by
  have h1 := lookup_map_resProj rs₁ k
  have h2 := lookup_map_resProj rs₂ k
  rw [h1, h2] at h
  unfold canonicalEntry resLookup
  cases hl1 : rs₁.lookup k <;> cases hl2 : rs₂.lookup k <;>
    simp [hl1, hl2] at h ⊢
  · exact ⟨h.1, h.2⟩

theorem lookup_eq_of_perm {β : Type} {l₁ l₂ : List (String × β)}
    (hp : l₁.Perm l₂) (hnd : (l₁.map Prod.fst).Nodup) (k : String) :
    l₁.lookup k = l₂.lookup k := by
  induction hp with
  | nil => rfl
  | cons x _ ih =>
    obtain ⟨a, b⟩ := x
    simp only [List.map_cons, List.nodup_cons] at hnd
    by_cases hk : k = a
    · subst hk; simp [List.lookup]
    · have hk' : (k == a) = false := beq_eq_false_iff_ne.mpr hk
      simp [List.lookup, hk', ih hnd.2]
  | swap x y l =>
    obtain ⟨a, b⟩ := x
    obtain ⟨c, d⟩ := y
    simp only [List.map_cons, List.nodup_cons, List.mem_cons] at hnd
    have hca : c ≠ a := by
      intro h
      exact hnd.1 (Or.inl h)
    by_cases hkc : k = c
    · subst hkc
      have hka : (k == a) = false := beq_eq_false_iff_ne.mpr hca
      simp [List.lookup, hka]
    · have hkc' : (k == c) = false := beq_eq_false_iff_ne.mpr hkc
      by_cases hka : k = a
      · subst hka; simp [List.lookup, hkc']
      · have hka' : (k == a) = false := beq_eq_false_iff_ne.mpr hka
        simp [List.lookup, hkc', hka']
  | trans h₁₂ _ ih₁ ih₂ =>
    rw [ih₁ hnd, ih₂ ((h₁₂.map Prod.fst).nodup_iff.mp hnd)]

/-- Two key lists that are permutations of each other have the same
insertion sort (the JS string order is a linear order). -/
theorem insertionSort_eq_of_perm {l₁ l₂ : List String} (hp : l₁.Perm l₂) :
    List.insertionSort jsLe l₁ = List.insertionSort jsLe l₂ :=
  List.eq_of_perm_of_sorted
    ((List.perm_insertionSort jsLe l₁).trans (hp.trans (List.perm_insertionSort jsLe l₂).symm))
    (List.sorted_insertionSort jsLe l₁)
    (List.sorted_insertionSort jsLe l₂)

/-! ## Ed25519 as an abstract deterministic signature scheme

`crypto.sign` / `crypto.subtle.verify` with Ed25519 cannot be embedded
concretely; the pipeline is parameterized over an abstract scheme.  `sign`
takes the PEM private key and the message and returns the hex signature
(the builder hex-encodes `crypto.sign`'s output); `verify` takes the SPKI
base64 public key, the hex signature and the message (the bootstrap decodes
the hex signature and UTF-8 encodes the message before `crypto.subtle.verify`,
a bijective recoding folded into the abstract `verify`); `pubOf` derives the
SPKI base64 public key of a PEM private key (`crypto.createPublicKey` +
SPKI DER export, as in buildApp step 3). -/
structure EdScheme where
  sign : String → String → String
  verify : String → String → String → Bool
  pubOf : String → String

/-- Ideal-functionality assumptions for a deterministic signature scheme:
a signature verifies under a public key exactly when it is the signature of
that message under a private key for that public key, and a signature value
binds its key and message. -/
def EdScheme.Ideal (E : EdScheme) : Prop :=
  (∀ pub sig data, E.verify pub sig data = true ↔
      ∃ priv, E.pubOf priv = pub ∧ sig = E.sign priv data) ∧
  (∀ priv₁ priv₂ data₁ data₂, E.sign priv₁ data₁ = E.sign priv₂ data₂ →
      E.pubOf priv₁ = E.pubOf priv₂ ∧ data₁ = data₂)

namespace Builder

/-- `signManifest` (src/plugin/manifest.ts): sign the canonical
representation and return the manifest with the hex signature populated. -/
def signManifest (E : EdScheme) (m : Manifest) (privateKeyPem : String) : Manifest :=
  { m with signature := some (E.sign privateKeyPem (canonicalizeManifest m)) }

end Builder

/-! ## SHA-256 (translated from the pure-JS `sha256js` in bootstrap.js)

Bytes are naturals < 256; 32-bit words are naturals < 2^32 with explicit
`% 4294967296` where JS uses `>>> 0` / 32-bit overflow. -/

/-- 2^32. -/
def w32 : Nat := 4294967296

/-- UTF-8 bytes of one character (`TextEncoder().encode`, or Node's
`Buffer.from(string)`). -/
def charUtf8 (c : Char) : List Nat :=
  let n := c.toNat
  if n < 128 then [n]
  else if n < 2048 then [192 + n / 64, 128 + n % 64]
  else if n < 65536 then [224 + n / 4096, 128 + n / 64 % 64, 128 + n % 64]
  else [240 + n / 262144, 128 + n / 4096 % 64, 128 + n / 64 % 64, 128 + n % 64]

/-- UTF-8 byte sequence of a string. -/
def utf8Bytes (s : String) : List Nat :=
  (s.data.map charUtf8).flatten

/-- 32-bit rotate right (`(x >>> n) | (x << (32-n))` on a 32-bit value). -/
def rotr (n x : Nat) : Nat := ((x >>> n) ||| (x <<< (32 - n))) % w32

/-- The SHA-256 round constants (`SHA256_K`). -/
def sha256K : List Nat :=
  [1116352408, 1899447441, 3049323471, 3921009573,
   961987163, 1508970993, 2453635748, 2870763221,
   3624381080, 310598401, 607225278, 1426881987,
   1925078388, 2162078206, 2614888103, 3248222580,
   3835390401, 4022224774, 264347078, 604807628,
   770255983, 1249150122, 1555081692, 1996064986,
   2554220882, 2821834349, 2952996808, 3210313671,
   3336571891, 3584528711, 113926993, 338241895,
   666307205, 773529912, 1294757372, 1396182291,
   1695183700, 1986661051, 2177026350, 2456956037,
   2730485921, 2820302411, 3259730800, 3345764771,
   3516065817, 3600352804, 4094571909, 275423344,
   430227734, 506948616, 659060556, 883997877,
   958139571, 1322822218, 1537002063, 1747873779,
   1955562222, 2024104815, 2227730452, 2361852424,
   2428436474, 2756734187, 3204031479, 3329325298]

/-- Big-endian 4-byte rendering of a 32-bit word (`DataView.setUint32`). -/
def be32 (x : Nat) : List Nat :=
  [x / 16777216 % 256, x / 65536 % 256, x / 256 % 256, x % 256]

/-- SHA-256 message padding as written in `sha256js`: append 0x80, zero
padding, then the bit length as a 64-bit big-endian integer of which only
the lower 32 bits are ever written (the upper 4 bytes stay zero). -/
def sha256Pad (bytes : List Nat) : List Nat :=
  let padLen0 := 64 - ((bytes.length + 9) % 64)
  let padLen := if padLen0 = 64 then 0 else padLen0
  bytes ++ 128 :: List.replicate padLen 0 ++ [0, 0, 0, 0] ++ be32 (bytes.length * 8 % w32)

/-- Big-endian 32-bit words of a byte list (`DataView.getUint32`). -/
def bytesToWords : List Nat → List Nat
  | b0 :: b1 :: b2 :: b3 :: rest =>
      (b0 * 16777216 + b1 * 65536 + b2 * 256 + b3) :: bytesToWords rest
  | _ => []

/-- The eight working variables / hash state. -/
structure Sha256State where
  a : Nat
  b : Nat
  c : Nat
  d : Nat
  e : Nat
  f : Nat
  g : Nat
  h : Nat
deriving Repr, DecidableEq

/-- Initial hash values h0..h7. -/
def sha256Init : Sha256State :=
  ⟨1779033703, 3144134277, 1013904242, 2773480762,
   1359893119, 2600822924, 528734635, 1541459225⟩

/-- Extend the 16 block words to the 64-word message schedule.  The loop
index `i` of the source is the current length of `ws`; the remaining
iteration count drives the recursion. -/
def extendSchedule : Nat → List Nat → List Nat
  | 0, ws => ws
  | steps + 1, ws =>
    let i := ws.length
    let w15 := ws.getD (i - 15) 0
    let w2 := ws.getD (i - 2) 0
    let s0 := (rotr 7 w15) ^^^ (rotr 18 w15) ^^^ (w15 >>> 3)
    let s1 := (rotr 17 w2) ^^^ (rotr 19 w2) ^^^ (w2 >>> 10)
    let wi := (ws.getD (i - 16) 0 + s0 + ws.getD (i - 7) 0 + s1) % w32
    extendSchedule steps (ws ++ [wi])

/-- One compression round. -/
def sha256Round (s : Sha256State) (ki wi : Nat) : Sha256State :=
  let bigS1 := (rotr 6 s.e) ^^^ (rotr 11 s.e) ^^^ (rotr 25 s.e)
  let ch := ((s.e &&& s.f) ^^^ ((w32 - 1 - s.e) &&& s.g)) % w32
  let temp1 := (s.h + bigS1 + ch + ki + wi) % w32
  let bigS0 := (rotr 2 s.a) ^^^ (rotr 13 s.a) ^^^ (rotr 22 s.a)
  let maj := (s.a &&& s.b) ^^^ (s.a &&& s.c) ^^^ (s.b &&& s.c)
  let temp2 := (bigS0 + maj) % w32
  ⟨(temp1 + temp2) % w32, s.a, s.b, s.c, (s.d + temp1) % w32, s.e, s.f, s.g⟩

/-- Compress one 64-byte block into the running hash state. -/
def sha256Block (hs : Sha256State) (block : List Nat) : Sha256State :=
  let ws := extendSchedule 48 (bytesToWords block)
  let s := (List.zip sha256K ws).foldl (fun s kw => sha256Round s kw.1 kw.2) hs
  ⟨(hs.a + s.a) % w32, (hs.b + s.b) % w32, (hs.c + s.c) % w32, (hs.d + s.d) % w32,
   (hs.e + s.e) % w32, (hs.f + s.f) % w32, (hs.g + s.g) % w32, (hs.h + s.h) % w32⟩

/-- Process the message 64 bytes at a time; the block count of the padded
message (its length is always a multiple of 64) drives the recursion. -/
def sha256BlocksLoop : Nat → List Nat → Sha256State → Sha256State
  | 0, _, hs => hs
  | n + 1, bytes, hs => sha256BlocksLoop n (bytes.drop 64) (sha256Block hs (bytes.take 64))

/-- Process the whole padded message. -/
def sha256Blocks (bytes : List Nat) (hs : Sha256State) : Sha256State :=
  sha256BlocksLoop (bytes.length / 64) bytes hs

/-- Two lowercase hex digits of a byte (`b.toString(16)` left-padded to 2). -/
def byteHexChars (b : Nat) : List Char :=
  [hexDigitChar (b / 16 % 16), hexDigitChar (b % 16)]

/-- SHA-256 digest of a byte sequence as a lowercase hex string
(the repository's `sha256js` composed with its `bytesToHex`). -/
def sha256Hex (bytes : List Nat) : String :=
  let hs := sha256Blocks (sha256Pad bytes) sha256Init
  String.mk (((be32 hs.a ++ be32 hs.b ++ be32 hs.c ++ be32 hs.d ++
    be32 hs.e ++ be32 hs.f ++ be32 hs.g ++ be32 hs.h).map byteHexChars).flatten)

/-- SHA-256 of a string's UTF-8 bytes: the bootstrap's `sha256(data)` for
string input, and the build side's `sha256hex` from src/plugin/manifest.ts. -/
def sha256hex (s : String) : String := sha256Hex (utf8Bytes s)

/-! ## Build side: generateManifest (src/plugin/manifest.ts) -/

namespace Builder

/-- `generateManifest`: hash and size every built file.  The timestamp
(`new Date().toISOString()` in the source) is passed in explicitly. -/
def generateManifest (files : List (String × List Nat)) (version timestamp : String) :
    Manifest :=
  { version := version
    timestamp := timestamp
    resources := files.map fun f =>
      (f.1, { hash := "sha256-" ++ sha256Hex f.2, size := f.2.length }) }

end Builder

/-! ## Bootstrap runtime: verification pipeline (bootstrap.js `main`) -/

namespace Bootstrap

/-- JS truthiness of an optional string field (`undefined` and the empty
string are falsy). -/
def jsTruthy : Option String → Bool
  | none => false
  | some s => s ≠ ""

/-- The `expectedHash.replace` call in `verifyResource`: remove one leading
`sha256-` tag if present (the anchored-regex replace). -/
def stripSha256Tag (h : String) : String :=
  match h.data with
  | 's' :: 'h' :: 'a' :: '2' :: '5' :: '6' :: '-' :: rest => String.mk rest
  | _ => h

/-- `verifyResource` (bootstrap.js): hash the fetched content and compare
against the manifest entry's expected hash with its `sha256-` tag removed.
The declared `size` is not an input.  Returns true when the content is
accepted. -/
def verifyResource (content : String) (expectedHash : String) : Bool :=
  sha256hex content = stripSha256Tag expectedHash

/-- `verifyManifest` (bootstrap.js): structural truthiness check
(`!manifest || !manifest.version || !manifest.resources || !manifest.signature`,
where the resources object itself is always truthy once present), then
Ed25519 verification of the hex signature over the recomputed canonical
form under the supplied public key. -/
def verifyManifest (E : EdScheme) (m : Manifest) (publicKey : String) :
    Except String Manifest :=
  if m.version = "" ∨ ¬ jsTruthy m.signature then
    .error "Invalid manifest structure"
  else if E.verify publicKey ((m.signature).getD "") (canonicalizeManifest m) then
    .ok m
  else
    .error "Manifest signature verification failed"

/-- Bootstrap configuration: the build-time embedded public key constant and
the per-installation script attributes (`data-mode`, `data-hash`). -/
structure Config where
  embeddedPublicKey : String
  updateMode : String
  manifestHash : String

/-- The network as seen by one bootstrap run: the parsed manifest fetch
result (`none` for an unreachable or unparsable manifest) and a fetch
oracle from full URL to response text (`none` for a failed fetch). -/
structure World where
  manifest : Option Manifest
  fetch : String → Option String

/-- Step 2 of `main`: verify the Ed25519 signature if a public key is
embedded (`EMBEDDED_PUBLIC_KEY && EMBEDDED_PUBLIC_KEY !== '__PUBLIC_KEY__'`);
otherwise warn and only check structural truthiness of version/resources. -/
def sigCheckStep (E : EdScheme) (epk : String) (m : Manifest) : Except String Manifest :=
  if epk ≠ "" ∧ epk ≠ "__PUBLIC_KEY__" then
    verifyManifest E m epk
  else if m.version = "" then
    .error "Invalid manifest structure"
  else
    .ok m

/-- Step 3 of `main`: in locked mode with a truthy pinned hash
(`UPDATE_MODE === 'locked' && MANIFEST_HASH`), recompute the canonical-form
digest and compare it to the pinned value. -/
def pinCheckStep (cfg : Config) (m : Manifest) : Except String Manifest :=
  if cfg.updateMode = "locked" ∧ cfg.manifestHash ≠ "" then
    if sha256hex (canonicalizeManifest m) = cfg.manifestHash then .ok m
    else .error ("Locked mode: manifest hash mismatch. Expected: " ++ cfg.manifestHash
      ++ ", got: " ++ sha256hex (canonicalizeManifest m))
  else
    .ok m

/-- `fetchResource` (bootstrap.js): fetch `baseUrl + resourcePath` — a
single URL; the entry's `urls` list is never consulted. -/
def fetchResource (w : World) (baseUrl resourcePath : String) : Option String :=
  w.fetch (baseUrl ++ resourcePath)

/-- Step 4 of `main`: fetch and hash-verify every resource listed in the
manifest, sequentially in key order, accumulating verified contents;
the first fetch failure or hash mismatch aborts the chain.  (The source's
fetch-failure message also interpolates the HTTP status code, which the
network model does not carry; the path part is kept.) -/
def fetchVerifyAll (w : World) (baseUrl : String) :
    List (String × ManifestResource) → List (String × String) →
    Except String (List (String × String))
  | [], acc => .ok acc
  | (path, entry) :: rest, acc =>
    match fetchResource w baseUrl path with
    | none => .error ("Resource fetch failed: " ++ path)
    | some content =>
      if verifyResource content entry.hash then
        fetchVerifyAll w baseUrl rest (acc ++ [(path, content)])
      else
        .error ("Resource hash mismatch: expected " ++ stripSha256Tag entry.hash
          ++ ", got: " ++ sha256hex content)

/-- The rendered page produced by `injectApp`: style contents for `.css`
paths, the chosen HTML content, script contents for `.js` paths — all read
from the verified `resources` map at the manifest's listed paths only
(falsy, i.e. missing or empty, contents are skipped). -/
structure RenderedPage where
  styles : List String
  htmlContent : String
  scripts : List String
deriving DecidableEq, Repr

/-- JS `resources[path]` followed by the `if (!content) continue` guard. -/
def contentAt (resources : List (String × String)) (path : String) : Option String :=
  match resources.lookup path with
  | some c => if c = "" then none else some c
  | none => none

/-- `resources['/app.html'] || resources['/index.html'] || resources['/main.html'] || ''`. -/
def chooseHtml (resources : List (String × String)) : String :=
  match contentAt resources "/app.html" with
  | some c => c
  | none =>
    match contentAt resources "/index.html" with
    | some c => c
    | none =>
      match contentAt resources "/main.html" with
      | some c => c
      | none => ""

/-- The anchored-suffix regex tests in `injectApp`. -/
def pathEndsWith (p : String) (pat : String) : Bool :=
  if pat.data.length ≤ p.data.length then
    p.data.drop (p.data.length - pat.data.length) == pat.data
  else false

/-- `injectApp` (bootstrap.js): iterate the manifest's resource keys,
injecting styles for `.css` paths and scripts for `.js` paths, and parse the
HTML resource if one of the known HTML paths is present. -/
def injectApp (resources : List (String × String)) (m : Manifest) : RenderedPage :=
  let keys := m.resources.map Prod.fst
  { styles := keys.filterMap fun p =>
      if pathEndsWith p ".css" then contentAt resources p else none
    htmlContent := chooseHtml resources
    scripts := keys.filterMap fun p =>
      if pathEndsWith p ".js" then contentAt resources p else none }

/-- Observable outcome of one bootstrap run: either `injectApp` ran on a
fully verified resource set, or `showError` displayed a failure message and
nothing was rendered. -/
inductive Outcome where
  | rendered : RenderedPage → Outcome
  | failed : String → Outcome
deriving DecidableEq, Repr

/-- `main` (bootstrap.js): fetch manifest → signature check → locked-mode
pin check → fetch/verify all resources → render; any rejection falls into
the final `.catch` which displays the error. -/
def mainRun (E : EdScheme) (cfg : Config) (baseUrl : String) (w : World) : Outcome :=
  match w.manifest with
  | none => .failed "Bootstrap failed: Manifest fetch failed"
  | some m0 =>
    match sigCheckStep E cfg.embeddedPublicKey m0 with
    | .error e => .failed ("Bootstrap failed: " ++ e)
    | .ok m1 =>
      match pinCheckStep cfg m1 with
      | .error e => .failed ("Bootstrap failed: " ++ e)
      | .ok m2 =>
        match fetchVerifyAll w baseUrl m2.resources [] with
        | .error e => .failed ("Bootstrap failed: " ++ e)
        | .ok resources => .rendered (injectApp resources m2)

end Bootstrap

/-! ## Trust-anchor assembler (src/plugin/bookmarklet.ts, data-URL version) -/

namespace Bookmarklet

/-- JS `a || b` for an optional string (absent and empty are falsy). -/
def jsOr (o : Option String) (dflt : String) : String :=
  match o with
  | none => dflt
  | some s => if s = "" then dflt else s

/-- `BookmarkletOptions`. -/
structure BookmarkletOptions where
  originUrl : String
  bootstrapUrl : String
  bootstrapHashBase64 : String
  updateMode : Option String := none
  manifestHash : Option String := none

/-- `buildBookmarkletHtml`: the single script tag of the data-URL page.
`data-mode=locked` is appended exactly when the update mode is locked;
`data-hash=` is appended exactly when the manifest hash is truthy. -/
def buildBookmarkletHtml (bootstrapUrl bootstrapHashBase64 updateMode manifestHash :
    String) : String :=
  let html := "<script src=" ++ bootstrapUrl
    ++ " integrity=sha256-" ++ bootstrapHashBase64
    ++ " crossorigin=anonymous"
  let html := if updateMode = "locked" then html ++ " data-mode=locked" else html
  let html := if manifestHash ≠ "" then html ++ " data-hash=" ++ manifestHash else html
  html ++ " onerror=document.body.innerHTML='Secure\\x20app\\x20load\\x20failed.'></script>"

/-- One base64 alphabet character. -/
def b64Char (n : Nat) : Char :=
  if n < 26 then Char.ofNat (65 + n)
  else if n < 52 then Char.ofNat (97 + (n - 26))
  else if n < 62 then Char.ofNat (48 + (n - 52))
  else if n = 62 then '+'
  else '/'

/-- Standard base64 of a byte list (`Buffer.prototype.toString('base64')`). -/
def base64Chars : List Nat → List Char
  | [] => []
  | [b0] =>
    [b64Char (b0 / 4), b64Char (b0 % 4 * 16), '=', '=']
  | [b0, b1] =>
    [b64Char (b0 / 4), b64Char (b0 % 4 * 16 + b1 / 16), b64Char (b1 % 16 * 4), '=']
  | b0 :: b1 :: b2 :: rest =>
    b64Char (b0 / 4) :: b64Char (b0 % 4 * 16 + b1 / 16) ::
      b64Char (b1 % 16 * 4 + b2 / 64) :: b64Char (b2 % 64) :: base64Chars rest

/-- `generateBookmarklet`: default the update mode to auto and the manifest
hash to the empty string, build the anchor HTML, and wrap it in a base64
`data:text/html` URL. -/
def generateBookmarklet (options : BookmarkletOptions) : String :=
  let updateMode := jsOr options.updateMode "auto"
  let manifestHash := jsOr options.manifestHash ""
  let html := buildBookmarkletHtml options.bootstrapUrl options.bootstrapHashBase64
    updateMode manifestHash
  "data:text/html;base64," ++ String.mk (base64Chars (utf8Bytes html))

end Bookmarklet

/-! ## Injectivity of the canonical rendering

A decoder for the exact output format of `renderCanonicalChars`, with a
decode-encode round trip; injectivity of the canonical form follows.  These
definitions are proof apparatus only — they model no repository code. -/

namespace Canon

/-- Value of a lowercase hex digit character. -/
def hexVal (c : Char) : Nat :=
  if 97 ≤ c.toNat then c.toNat - 87 else c.toNat - 48

/-- Parse a JSON string body (opening quote already consumed) up to its
closing quote, undoing QuoteJSONString escapes. -/
def parseStr : List Char → Option (List Char × List Char)
  | [] => none
  | c :: rest =>
    if c = '"' then some ([], rest)
    else if c = '\\' then
      match rest with
      | [] => none
      | e :: rest₂ =>
        if e = '"' then (parseStr rest₂).map fun p => ('"' :: p.1, p.2)
        else if e = '\\' then (parseStr rest₂).map fun p => ('\\' :: p.1, p.2)
        else if e = 'b' then (parseStr rest₂).map fun p => (Char.ofNat 8 :: p.1, p.2)
        else if e = 't' then (parseStr rest₂).map fun p => (Char.ofNat 9 :: p.1, p.2)
        else if e = 'n' then (parseStr rest₂).map fun p => (Char.ofNat 10 :: p.1, p.2)
        else if e = 'f' then (parseStr rest₂).map fun p => (Char.ofNat 12 :: p.1, p.2)
        else if e = 'r' then (parseStr rest₂).map fun p => (Char.ofNat 13 :: p.1, p.2)
        else if e = 'u' then
          match rest₂ with
          | h₁ :: h₂ :: h₃ :: h₄ :: rest₃ =>
            (parseStr rest₃).map fun p =>
              (Char.ofNat (4096 * hexVal h₁ + 256 * hexVal h₂ + 16 * hexVal h₃ + hexVal h₄)
                :: p.1, p.2)
          | _ => none
        else none
    else (parseStr rest).map fun p => (c :: p.1, p.2)
  termination_by l => l.length
  decreasing_by all_goals simp_wf <;> omega

/-- Consume an expected literal character sequence. -/
def dropLit : List Char → List Char → Option (List Char)
  | [], l => some l
  | _ :: _, [] => none
  | c :: cs, d :: ds => if c = d then dropLit cs ds else none

/-- Split a leading run of decimal digits. -/
def splitDigits : List Char → List Char × List Char
  | [] => ([], [])
  | c :: rest =>
    if 48 ≤ c.toNat ∧ c.toNat ≤ 57 then
      let p := splitDigits rest
      (c :: p.1, p.2)
    else ([], c :: rest)

/-- Numeric value of a digit run. -/
def digitsVal (l : List Char) : Nat :=
  l.foldl (fun a c => a * 10 + (c.toNat - 48)) 0

/-- The fixed characters between a parsed entry key and its hash string. -/
def litEntryHash : List Char :=
  ':' :: Char.ofNat 123 :: quoteChars "hash" ++ [':', '"']

/-- The fixed characters between a parsed hash string and its size digits. -/
def litEntrySize : List Char :=
  ',' :: quoteChars "size" ++ [':']

/-- Parse one rendered resource entry. -/
def parseEntry (l : List Char) : Option ((String × String × Nat) × List Char) :=
  match l with
  | '"' :: l₁ =>
    (parseStr l₁).bind fun pk =>
    (dropLit litEntryHash pk.2).bind fun l₂ =>
    (parseStr l₂).bind fun ph =>
    (dropLit litEntrySize ph.2).bind fun l₃ =>
    match splitDigits l₃ with
    | ([], _) => none
    | (ds, rest) =>
      match rest with
      | c :: l₄ =>
        if c = Char.ofNat 125 then some ((String.mk pk.1, String.mk ph.1, digitsVal ds), l₄)
        else none
      | [] => none
  | _ => none

/-- Parse a non-empty comma-separated entry sequence up to the closing
brace of the resources object. -/
def parseEntrySeq : Nat → List Char → Option (List (String × String × Nat) × List Char)
  | fuel, l =>
    (parseEntry l).bind fun p =>
      match p.2 with
      | c :: rest₂ =>
        if c = ',' then
          match fuel with
          | 0 => none
          | fuel' + 1 => (parseEntrySeq fuel' rest₂).map fun q => (p.1 :: q.1, q.2)
        else if c = Char.ofNat 125 then some ([p.1], rest₂)
        else none
      | [] => none

/-- Parse the inside of the resources object (opening brace consumed). -/
def parseResources (fuel : Nat) (l : List Char) : Option (List (String × String × Nat) × List Char) :=
  match l with
  | [] => none
  | c :: rest =>
    if c = Char.ofNat 125 then some ([], rest) else parseEntrySeq fuel (c :: rest)

/-- The fixed characters opening the canonical object. -/
def litVersion : List Char :=
  Char.ofNat 123 :: quoteChars "version" ++ [':', '"']

/-- The fixed characters between the version and timestamp strings. -/
def litTimestamp : List Char :=
  ',' :: quoteChars "timestamp" ++ [':', '"']

/-- The fixed characters between the timestamp string and the resources
object. -/
def litResources : List Char :=
  ',' :: quoteChars "resources" ++ [':', Char.ofNat 123]

/-- Full decoder for the canonical rendering. -/
def decodeCanonical (l : List Char) : Option (String × String × List (String × String × Nat)) :=
  (dropLit litVersion l).bind fun l₁ =>
  (parseStr l₁).bind fun pv =>
  (dropLit litTimestamp pv.2).bind fun l₂ =>
  (parseStr l₂).bind fun pt =>
  (dropLit litResources pt.2).bind fun l₃ =>
  (parseResources l₃.length l₃).bind fun pr =>
  match pr.2 with
  | [c] => if c = Char.ofNat 125 then some (String.mk pv.1, String.mk pt.1, pr.1) else none
  | _ => none

theorem toNat_ofNat_small {m : Nat} (h : m < 55296) : (Char.ofNat m).toNat = m := by
  have hv : Nat.isValidChar m := Or.inl h
  unfold Char.ofNat
  rw [dif_pos hv]
  simp [Char.ofNatAux, Char.toNat, UInt32.toNat, BitVec.toNat_ofNatLt]

theorem hexVal_hexDigitChar {d : Nat} (h : d < 16) : hexVal (hexDigitChar d) = d := by
  unfold hexDigitChar hexVal
  by_cases h10 : d < 10
  · rw [if_pos h10, toNat_ofNat_small (by omega)]
    rw [if_neg (by omega)]
    omega
  · rw [if_neg h10, toNat_ofNat_small (by omega)]
    rw [if_pos (by omega)]
    omega

theorem dropLit_roundtrip (lit l : List Char) : dropLit lit (lit ++ l) = some l := by
  induction lit with
  | nil => rfl
  | cons c cs ih => simp [dropLit, ih]

theorem parseStr_roundtrip (s : List Char) (rest : List Char) :
    parseStr ((s.map escapeChar).flatten ++ '"' :: rest) = some (s, rest) := by
  induction s with
  | nil =>
    simp only [List.map_nil, List.flatten_nil, List.nil_append]
    rw [parseStr.eq_def]
    simp
  | cons c cs ih =>
    simp only [List.map_cons, List.flatten_cons, List.append_assoc]
    by_cases h1 : c = '"'
    · subst h1
      rw [show escapeChar '"' = ['\\', '"'] from rfl]
      simp only [List.cons_append, List.nil_append]
      rw [parseStr.eq_def]
      simp [ih]
    by_cases h2 : c = '\\'
    · subst h2
      rw [show escapeChar '\\' = ['\\', '\\'] from rfl]
      simp only [List.cons_append, List.nil_append]
      rw [parseStr.eq_def]
      simp [ih]
    by_cases h3 : c = Char.ofNat 8
    · subst h3
      rw [show escapeChar (Char.ofNat 8) = ['\\', 'b'] from rfl]
      simp only [List.cons_append, List.nil_append]
      rw [parseStr.eq_def]
      simp [ih]
    by_cases h4 : c = Char.ofNat 9
    · subst h4
      rw [show escapeChar (Char.ofNat 9) = ['\\', 't'] from rfl]
      simp only [List.cons_append, List.nil_append]
      rw [parseStr.eq_def]
      simp [ih]
    by_cases h5 : c = Char.ofNat 10
    · subst h5
      rw [show escapeChar (Char.ofNat 10) = ['\\', 'n'] from rfl]
      simp only [List.cons_append, List.nil_append]
      rw [parseStr.eq_def]
      simp [ih]
    by_cases h6 : c = Char.ofNat 12
    · subst h6
      rw [show escapeChar (Char.ofNat 12) = ['\\', 'f'] from rfl]
      simp only [List.cons_append, List.nil_append]
      rw [parseStr.eq_def]
      simp [ih]
    by_cases h7 : c = Char.ofNat 13
    · subst h7
      rw [show escapeChar (Char.ofNat 13) = ['\\', 'r'] from rfl]
      simp only [List.cons_append, List.nil_append]
      rw [parseStr.eq_def]
      simp [ih]
    by_cases h8 : c.toNat < 32
    · rw [show escapeChar c =
        ['\\', 'u', '0', '0', hexDigitChar (c.toNat / 16), hexDigitChar (c.toNat % 16)] from by
          unfold escapeChar
          rw [if_neg h1, if_neg h2, if_neg h3, if_neg h4, if_neg h5, if_neg h6, if_neg h7,
            if_pos h8]]
      simp only [List.cons_append, List.nil_append]
      rw [parseStr.eq_def]
      have hz : hexVal '0' = 0 := by decide
      have ha : hexVal (hexDigitChar (c.toNat / 16)) = c.toNat / 16 :=
        hexVal_hexDigitChar (by omega)
      have hb : hexVal (hexDigitChar (c.toNat % 16)) = c.toNat % 16 :=
        hexVal_hexDigitChar (by omega)
      have hsum : 4096 * hexVal '0' + 256 * hexVal '0'
          + 16 * hexVal (hexDigitChar (c.toNat / 16))
          + hexVal (hexDigitChar (c.toNat % 16)) = c.toNat := by
        rw [hz, ha, hb]; omega
      simp [ih, hsum, Char.ofNat_toNat]
    · rw [show escapeChar c = [c] from by
        unfold escapeChar
        rw [if_neg h1, if_neg h2, if_neg h3, if_neg h4, if_neg h5, if_neg h6, if_neg h7,
          if_neg h8]]
      simp only [List.cons_append, List.nil_append]
      rw [parseStr.eq_def]
      simp [h1, h2, ih]

end Canon

end Markproof
namespace Markproof

theorem mk_data (s : String) : String.mk s.data = s := by cases s; rfl

namespace Canon

theorem decDigits_digits (n : Nat) : ∀ c ∈ decDigits n, 48 ≤ c.toNat ∧ c.toNat ≤ 57 := by
  induction n using Nat.strong_induction_on with
  | _ n ih =>
    by_cases hn : n < 10
    · rw [decDigits_base hn]
      intro c hc
      simp only [List.mem_singleton] at hc
      subst hc
      rw [toNat_ofNat_small (by omega)]
      omega
    · rw [decDigits_step hn]
      intro c hc
      rcases List.mem_append.mp hc with h | h
      · exact ih (n / 10) (Nat.div_lt_self (by omega) (by omega)) c h
      · simp only [List.mem_singleton] at h
        subst h
        rw [toNat_ofNat_small (by omega)]
        omega

theorem decDigits_ne_nil (n : Nat) : decDigits n ≠ [] := by
  by_cases hn : n < 10
  · rw [decDigits_base hn]; simp
  · rw [decDigits_step hn]; simp

theorem digitsVal_decDigits (n : Nat) : digitsVal (decDigits n) = n := by
  induction n using Nat.strong_induction_on with
  | _ n ih =>
    by_cases hn : n < 10
    · rw [decDigits_base hn]
      unfold digitsVal
      simp [toNat_ofNat_small (show 48 + n < 55296 by omega)]
    · rw [decDigits_step hn]
      unfold digitsVal
      rw [List.foldl_append]
      have hd := ih (n / 10) (Nat.div_lt_self (by omega) (by omega))
      unfold digitsVal at hd
      rw [hd]
      simp [toNat_ofNat_small (show 48 + n % 10 < 55296 by omega)]
      omega

theorem splitDigits_spec (ds : List Char) (e : Char) (r : List Char)
    (hds : ∀ c ∈ ds, 48 ≤ c.toNat ∧ c.toNat ≤ 57)
    (he : ¬ (48 ≤ e.toNat ∧ e.toNat ≤ 57)) :
    splitDigits (ds ++ e :: r) = (ds, e :: r) := by
  induction ds with
  | nil => simp [splitDigits, he]
  | cons c cs ih =>
    have hc := hds c (by simp)
    simp only [List.cons_append, splitDigits, hc, if_pos, and_self, List.append_eq]
    rw [ih (fun x hx => hds x (by simp [hx]))]

theorem dropLit_litEntryHash (X : List Char) :
    dropLit litEntryHash (':' :: Char.ofNat 123 :: '"' ::
      ((List.map escapeChar "hash".data).flatten ++ '"' :: ':' :: '"' :: X)) = some X := rfl

theorem dropLit_litEntrySize (X : List Char) :
    dropLit litEntrySize (',' :: '"' ::
      ((List.map escapeChar "size".data).flatten ++ '"' :: ':' :: X)) = some X := rfl

theorem parseEntry_roundtrip (e : String × String × Nat) (r : List Char) :
    parseEntry (renderEntryChars e ++ r) = some (e, r) := by
  obtain ⟨k, h, n⟩ := e
  unfold renderEntryChars parseEntry
  simp only [quoteChars, List.cons_append, List.append_assoc, List.nil_append]
  rw [parseStr_roundtrip]
  simp only [Option.some_bind]
  rw [dropLit_litEntryHash]
  simp only [Option.some_bind]
  rw [parseStr_roundtrip]
  simp only [Option.some_bind]
  rw [dropLit_litEntrySize]
  simp only [Option.some_bind]
  rw [splitDigits_spec (decDigits n) (Char.ofNat 125) r (decDigits_digits n) (by decide)]
  cases hds : decDigits n with
  | nil => exact absurd hds (decDigits_ne_nil n)
  | cons d ds =>
    simp only [if_true]
    rw [← hds, digitsVal_decDigits, mk_data, mk_data]

theorem renderEntryChars_head (e : String × String × Nat) :
    ∃ X, renderEntryChars e = '"' :: X := by
  unfold renderEntryChars quoteChars
  simp only [List.cons_append, List.append_assoc]
  exact ⟨_, rfl⟩

theorem parseEntrySeq_roundtrip (es : List (String × String × Nat)) :
    ∀ (fuel : Nat) (r : List Char), es ≠ [] → es.length ≤ fuel + 1 →
    parseEntrySeq fuel (joinComma (es.map renderEntryChars) ++ Char.ofNat 125 :: r) =
      some (es, r) := by
  induction es with
  | nil => intro fuel r hne _; exact absurd rfl hne
  | cons e es ih =>
    intro fuel r _ hfuel
    cases es with
    | nil =>
      simp only [List.map_cons, List.map_nil, joinComma]
      unfold parseEntrySeq
      rw [parseEntry_roundtrip]
      simp only [Option.some_bind]
      rw [if_neg (by decide), if_true]
    | cons e' es' =>
      simp only [List.map_cons, joinComma, List.append_assoc, List.cons_append]
      unfold parseEntrySeq
      rw [parseEntry_roundtrip]
      simp only [Option.some_bind]
      cases fuel with
      | zero => simp at hfuel
      | succ fuel' =>
        simp only [if_true]
        have hih := ih fuel' r (by simp) (by simp at hfuel ⊢; omega)
        simp only [List.map_cons] at hih
        simp [hih]

theorem parseResources_eq_seq (fuel : Nat) (l : List Char) (c : Char) (rest : List Char)
    (hl : l = c :: rest) (h : ¬ c = Char.ofNat 125) :
    parseResources fuel l = parseEntrySeq fuel l := by
  subst hl
  unfold parseResources
  simp [h]

theorem parseResources_roundtrip (es : List (String × String × Nat)) (fuel : Nat)
    (r : List Char) (hfuel : es.length ≤ fuel + 1) :
    parseResources fuel (joinComma (es.map renderEntryChars) ++ Char.ofNat 125 :: r) =
      some (es, r) := by
  cases es with
  | nil => simp [joinComma, parseResources]
  | cons e es' =>
    obtain ⟨X, hX⟩ := renderEntryChars_head e
    have hshape : ∃ T, joinComma ((e :: es').map renderEntryChars) ++ Char.ofNat 125 :: r =
        '"' :: T := by
      cases es' with
      | nil =>
        refine ⟨X ++ Char.ofNat 125 :: r, ?_⟩
        simp [joinComma, hX]
      | cons e'' es'' =>
        refine ⟨X ++ ',' ::
          (joinComma (renderEntryChars e'' :: List.map renderEntryChars es'')
            ++ Char.ofNat 125 :: r), ?_⟩
        simp [joinComma, hX]
    obtain ⟨T, hT⟩ := hshape
    rw [parseResources_eq_seq fuel _ '"' T hT (by decide)]
    exact parseEntrySeq_roundtrip (e :: es') fuel r (by simp) hfuel

theorem joinComma_length (ls : List (List Char)) (h : ∀ l ∈ ls, l ≠ []) :
    ls.length ≤ (joinComma ls).length + 1 := by
  induction ls with
  | nil => simp [joinComma]
  | cons x xs ih =>
    cases xs with
    | nil => simp [joinComma]
    | cons y ys =>
      have hx : x ≠ [] := h x (by simp)
      have hxlen : 1 ≤ x.length := by
        cases x with
        | nil => exact absurd rfl hx
        | cons a as => simp
      have := ih (fun l hl => h l (by simp [hl]))
      simp only [joinComma, List.length_append, List.length_cons] at this ⊢
      omega

theorem dropLit_litVersion (X : List Char) :
    dropLit litVersion (Char.ofNat 123 :: '"' ::
      ((List.map escapeChar "version".data).flatten ++ '"' :: ':' :: '"' :: X)) = some X := rfl

theorem dropLit_litTimestamp (X : List Char) :
    dropLit litTimestamp (',' :: '"' ::
      ((List.map escapeChar "timestamp".data).flatten ++ '"' :: ':' :: '"' :: X)) = some X := rfl

theorem dropLit_litResources (X : List Char) :
    dropLit litResources (',' :: '"' ::
      ((List.map escapeChar "resources".data).flatten ++ '"' :: ':' :: Char.ofNat 123 :: X)) =
      some X := rfl

theorem decodeCanonical_roundtrip (v t : String) (es : List (String × String × Nat)) :
    decodeCanonical (renderCanonicalChars v t es) = some (v, t, es) := by
  unfold renderCanonicalChars decodeCanonical
  simp only [quoteChars, List.cons_append, List.append_assoc, List.nil_append]
  rw [dropLit_litVersion]
  simp only [Option.some_bind]
  rw [parseStr_roundtrip]
  simp only [Option.some_bind]
  rw [dropLit_litTimestamp]
  simp only [Option.some_bind]
  rw [parseStr_roundtrip]
  simp only [Option.some_bind]
  rw [dropLit_litResources]
  simp only [Option.some_bind]
  have hne : ∀ l ∈ es.map renderEntryChars, l ≠ [] := by
    intro l hl
    simp only [List.mem_map] at hl
    obtain ⟨e, _, he⟩ := hl
    obtain ⟨Y, hY⟩ := renderEntryChars_head e
    rw [← he, hY]
    simp
  have hbound : es.length ≤
      (joinComma (es.map renderEntryChars) ++ Char.ofNat 125 :: [Char.ofNat 125]).length + 1 := by
    have h1 := joinComma_length (es.map renderEntryChars) hne
    simp only [List.length_map] at h1
    simp only [List.length_append, List.length_cons]
    omega
  rw [show (joinComma (es.map renderEntryChars) ++ [Char.ofNat 125, Char.ofNat 125]) =
    (joinComma (es.map renderEntryChars) ++ Char.ofNat 125 :: [Char.ofNat 125]) from rfl]
  rw [parseResources_roundtrip es _ [Char.ofNat 125] hbound]
  simp [mk_data]

theorem renderCanonicalChars_inj {v t v' t' : String}
    {es es' : List (String × String × Nat)}
    (h : renderCanonicalChars v t es = renderCanonicalChars v' t' es') :
    v = v' ∧ t = t' ∧ es = es' := by
  have h1 := decodeCanonical_roundtrip v t es
  rw [h, decodeCanonical_roundtrip] at h1
  simp only [Option.some.injEq, Prod.mk.injEq] at h1
  exact ⟨h1.1.symm, h1.2.1.symm, h1.2.2.symm⟩

end Canon

end Markproof
namespace Markproof

/-! ## Manifest-level corollaries of rendering injectivity -/

/-- The sorted signed projection of a manifest's resources: exactly the
entry list that both canonicalizers serialize. -/
def sortedEntries (m : Manifest) : List (String × String × Nat) :=
  (List.insertionSort jsLe (m.resources.map Prod.fst)).map (canonicalEntry m.resources)

theorem canonicalizeManifest_eq_render (m : Manifest) :
    Builder.canonicalizeManifest m =
      String.mk (renderCanonicalChars m.version m.timestamp
        (enumOrder (sortedEntries m))) := rfl

/-- `enumOrder` only rearranges its input. -/
theorem enumOrder_perm (es : List (String × String × Nat)) :
    (enumOrder es).Perm es := by
  unfold enumOrder
  exact ((List.perm_insertionSort numKeyLe _).append_right _).trans
    (List.filter_append_perm _ es)

theorem sortedEntries_map_fst (m : Manifest) :
    (sortedEntries m).map Prod.fst =
      List.insertionSort jsLe (m.resources.map Prod.fst) := by
  unfold sortedEntries
  simp only [List.map_map]
  rw [show (Prod.fst ∘ canonicalEntry m.resources) = id from rfl, List.map_id]

/-- The entries of `sortedEntries` are sorted by key. -/
theorem sortedEntries_sorted_key (m : Manifest) :
    (sortedEntries m).Sorted (fun a b => jsLe a.1 b.1) := by
  unfold sortedEntries
  exact List.Pairwise.map (canonicalEntry m.resources) (fun a b h => h)
    (List.sorted_insertionSort jsLe (m.resources.map Prod.fst))

/-- Within `sortedEntries`, the key determines the whole entry (a repeated
key repeats the lookup of its first occurrence). -/
theorem sortedEntries_keyDet (m : Manifest) :
    ∀ a ∈ sortedEntries m, ∀ b ∈ sortedEntries m, a.1 = b.1 → a = b := by
  intro a ha b hb hk
  unfold sortedEntries at ha hb
  obtain ⟨ka, _, rfl⟩ := List.mem_map.mp ha
  obtain ⟨kb, _, rfl⟩ := List.mem_map.mp hb
  have hkk : ka = kb := hk
  rw [hkk]

/-- The key of every entry of `sortedEntries` is a key of the manifest. -/
theorem mem_sortedEntries_key {m : Manifest} {e : String × String × Nat}
    (he : e ∈ sortedEntries m) : e.1 ∈ m.resources.map Prod.fst := by
  unfold sortedEntries at he
  obtain ⟨k, hk, rfl⟩ := List.mem_map.mp he
  exact (List.perm_insertionSort jsLe _).subset hk

/-- Key-sorted entry lists in which the key determines the entry are equal
once they are permutations of each other: antisymmetry survives repeated
keys because repeated keys carry identical entries. -/
theorem eq_of_perm_sorted_keyDet :
    ∀ es₁ es₂ : List (String × String × Nat), es₁.Perm es₂ →
      es₁.Sorted (fun a b => jsLe a.1 b.1) →
      es₂.Sorted (fun a b => jsLe a.1 b.1) →
      (∀ a ∈ es₁, ∀ b ∈ es₁, a.1 = b.1 → a = b) → es₁ = es₂ := by
  intro es₁
  induction es₁ with
  | nil =>
    intro es₂ hp _ _ _
    exact hp.symm.eq_nil.symm
  | cons a t ih =>
    intro es₂ hp hs₁ hs₂ hkd
    cases es₂ with
    | nil => exact absurd hp.eq_nil (by simp)
    | cons b t₂ =>
      have hb₁ : b ∈ a :: t := hp.mem_iff.mpr (List.mem_cons_self b t₂)
      have ha₂ : a ∈ b :: t₂ := hp.mem_iff.mp (List.mem_cons_self a t)
      have hab : a = b := by
        rcases List.mem_cons.mp hb₁ with h | h
        · exact h.symm
        · rcases List.mem_cons.mp ha₂ with h' | h'
          · exact h'
          · have h1 : jsLe a.1 b.1 := List.rel_of_sorted_cons hs₁ b h
            have h2 : jsLe b.1 a.1 := List.rel_of_sorted_cons hs₂ a h'
            exact hkd a (List.mem_cons_self a t) b (List.mem_cons_of_mem a h)
              (antisymm h1 h2)
      subst hab
      have ht : t = t₂ := ih t₂ hp.cons_inv hs₁.of_cons hs₂.of_cons
        (fun x hx y hy => hkd x (List.mem_cons_of_mem a hx)
          y (List.mem_cons_of_mem a hy))
      rw [ht]

/-- On the image of `sortedEntries`, the enumeration order determines the
insertion order. -/
theorem enumOrder_sortedEntries_inj {m₁ m₂ : Manifest}
    (h : enumOrder (sortedEntries m₁) = enumOrder (sortedEntries m₂)) :
    sortedEntries m₁ = sortedEntries m₂ := by
  have h1 := (enumOrder_perm (sortedEntries m₁)).symm
  rw [h] at h1
  exact eq_of_perm_sorted_keyDet _ _ (h1.trans (enumOrder_perm (sortedEntries m₂)))
    (sortedEntries_sorted_key m₁) (sortedEntries_sorted_key m₂)
    (sortedEntries_keyDet m₁)

theorem canonicalizeManifest_inj {m₁ m₂ : Manifest}
    (h : Builder.canonicalizeManifest m₁ = Builder.canonicalizeManifest m₂) :
    m₁.version = m₂.version ∧ m₁.timestamp = m₂.timestamp ∧
      sortedEntries m₁ = sortedEntries m₂ := by
  rw [canonicalizeManifest_eq_render, canonicalizeManifest_eq_render] at h
  have h2 : renderCanonicalChars m₁.version m₁.timestamp
        (enumOrder (sortedEntries m₁)) =
      renderCanonicalChars m₂.version m₂.timestamp
        (enumOrder (sortedEntries m₂)) := by
    have := congrArg String.data h
    simpa using this
  obtain ⟨hv, ht, he⟩ := Canon.renderCanonicalChars_inj h2
  exact ⟨hv, ht, enumOrder_sortedEntries_inj he⟩

theorem canonicalizeManifest_ne_of_entries_ne {m₁ m₂ : Manifest}
    (he : sortedEntries m₁ ≠ sortedEntries m₂) :
    Builder.canonicalizeManifest m₁ ≠ Builder.canonicalizeManifest m₂ := by
  intro h
  exact he (canonicalizeManifest_inj h).2.2

/-! ## A concrete ideal signature scheme (used to instantiate witnesses) -/

/-- An injective pairing of two strings: a unary length prefix for the
first component, a separator, then the two components. -/
def encodePair (a b : String) : String :=
  String.mk (List.replicate a.length 'L' ++ '#' :: (a.data ++ b.data))

theorem replicate_sep_inj : ∀ (n₁ n₂ : Nat) (r₁ r₂ : List Char),
    List.replicate n₁ 'L' ++ '#' :: r₁ = List.replicate n₂ 'L' ++ '#' :: r₂ →
    n₁ = n₂ ∧ r₁ = r₂ := by
  intro n₁
  induction n₁ with
  | zero =>
    intro n₂ r₁ r₂ h
    cases n₂ with
    | zero => simpa using h
    | succ n₂' =>
      simp only [List.replicate, List.nil_append, List.cons_append, List.cons.injEq] at h
      exact absurd h.1 (by decide)
  | succ n₁' ih =>
    intro n₂ r₁ r₂ h
    cases n₂ with
    | zero =>
      simp only [List.replicate, List.nil_append, List.cons_append, List.cons.injEq] at h
      exact absurd h.1 (by decide)
    | succ n₂' =>
      simp only [List.replicate, List.cons_append, List.cons.injEq] at h
      obtain ⟨hn, hr⟩ := ih n₂' r₁ r₂ h.2
      exact ⟨by omega, hr⟩

theorem encodePair_inj {a₁ b₁ a₂ b₂ : String}
    (h : encodePair a₁ b₁ = encodePair a₂ b₂) : a₁ = a₂ ∧ b₁ = b₂ := by
  unfold encodePair at h
  have h1 : List.replicate a₁.length 'L' ++ '#' :: (a₁.data ++ b₁.data) =
      List.replicate a₂.length 'L' ++ '#' :: (a₂.data ++ b₂.data) := by
    have := congrArg String.data h
    simpa using this
  obtain ⟨hn, hr⟩ := replicate_sep_inj _ _ _ _ h1
  have hlen : a₁.data.length = a₂.data.length := hn
  obtain ⟨ha, hb⟩ := List.append_inj hr hlen
  constructor
  · cases a₁; cases a₂; exact congrArg String.mk ha
  · cases b₁; cases b₂; exact congrArg String.mk hb

/-- A concrete deterministic signature scheme satisfying the ideal
assumptions (the public key of a private key is the key string itself). -/
def toyEd : EdScheme :=
  { sign := fun priv data => encodePair priv data
    verify := fun pub sig data => sig == encodePair pub data
    pubOf := fun priv => priv }

theorem toyEd_ideal : toyEd.Ideal := by
  constructor
  · intro pub sig data
    simp only [toyEd, beq_iff_eq]
    constructor
    · intro h
      exact ⟨pub, rfl, h⟩
    · rintro ⟨priv, rfl, rfl⟩
      rfl
  · intro priv₁ priv₂ data₁ data₂ h
    have := encodePair_inj h
    exact ⟨this.1, this.2⟩

theorem toyEd_sign_ne_empty (p d : String) : toyEd.sign p d ≠ "" := by
  simp only [toyEd, encodePair]
  intro h
  have := congrArg String.data h
  simp at this

end Markproof
namespace Markproof

theorem map_fst_resProj (rs : List (String × ManifestResource)) :
    (rs.map resProj).map Prod.fst = rs.map Prod.fst := by
  simp only [List.map_map]
  rfl

/-- C1.  For every manifest, the canonical form computed by the build-time
signer path (canonicalizeManifest in src/plugin/manifest.ts, used by
builder.ts) and the canonical form computed by the load-time verifier path
(canonicalizeManifest in bootstrap.js) are byte-identical strings. -/
theorem claim_C1_canonicalizer_equivalence (m : Manifest) :
    Builder.canonicalizeManifest m = Bootstrap.canonicalizeManifest m := by
  unfold Builder.canonicalizeManifest Bootstrap.canonicalizeManifest
  dsimp only
  rw [foldl_append_singleton_eq_map]
  simp

theorem enumOrder_filter_idx (es : List (String × String × Nat)) :
    (enumOrder es).filter (fun e => isArrayIndex e.1) =
      (es.filter fun e => isArrayIndex e.1).insertionSort numKeyLe := by
  unfold enumOrder
  rw [List.filter_append]
  have h1 : ((es.filter fun e => isArrayIndex e.1).insertionSort numKeyLe).filter
      (fun e => isArrayIndex e.1) =
      (es.filter fun e => isArrayIndex e.1).insertionSort numKeyLe := by
    apply List.filter_eq_self.mpr
    intro a ha
    exact (List.mem_filter.mp ((List.perm_insertionSort numKeyLe _).subset ha)).2
  have h2 : (es.filter fun e => !isArrayIndex e.1).filter
      (fun e => isArrayIndex e.1) = [] := by
    rw [List.filter_filter]
    apply List.filter_eq_nil_iff.mpr
    intro a _
    cases h : isArrayIndex a.1 <;> simp [h]
  rw [h1, h2, List.append_nil]

theorem enumOrder_filter_str (es : List (String × String × Nat)) :
    (enumOrder es).filter (fun e => !isArrayIndex e.1) =
      es.filter fun e => !isArrayIndex e.1 := by
  unfold enumOrder
  rw [List.filter_append]
  have h1 : ((es.filter fun e => isArrayIndex e.1).insertionSort numKeyLe).filter
      (fun e => !isArrayIndex e.1) = [] := by
    apply List.filter_eq_nil_iff.mpr
    intro a ha
    have := (List.mem_filter.mp ((List.perm_insertionSort numKeyLe _).subset ha)).2
    simp [this]
  have h2 : (es.filter fun e => !isArrayIndex e.1).filter
      (fun e => !isArrayIndex e.1) = es.filter fun e => !isArrayIndex e.1 := by
    apply List.filter_eq_self.mpr
    intro a ha
    exact (List.mem_filter.mp ha).2
  rw [h1, h2, List.nil_append]

/-- C6 (amended).  canonicalizeManifest is deterministic and field-order
independent: manifests agreeing on version, timestamp and the per-path
hash/size content of resources (in any order, with any urls, signature or
publicKey-like fields) canonicalize to the identical byte string, and the
signature, publicKey and urls fields never influence the output.  The
output renders the resource entries in JSON.stringify property enumeration
order: its keys are a permutation of the manifest's resource keys in which
the canonical array-index keys come first in ascending numeric order and
the remaining keys appear lexicographically sorted; when no resource path
is an array-index key the emitted key order is fully lexicographic.  (The
original claim's unconditional lexicographic sortedness fails for
array-index resource paths — see the counterexample.) -/
theorem claim_C6_canonicalize_deterministic :
    (∀ m₁ m₂ : Manifest, m₁.version = m₂.version → m₁.timestamp = m₂.timestamp →
      (m₁.resources.map resProj).Perm (m₂.resources.map resProj) →
      (m₁.resources.map Prod.fst).Nodup →
      Builder.canonicalizeManifest m₁ = Builder.canonicalizeManifest m₂)
    ∧ (∀ (m : Manifest) (s p : Option String),
      Builder.canonicalizeManifest
        { m with signature := s, publicKey := p } = Builder.canonicalizeManifest m)
    ∧ (∀ (m : Manifest) (g : String → Option (List String)),
      Builder.canonicalizeManifest
        { m with resources := m.resources.map fun kv => (kv.1, { kv.2 with urls := g kv.1 }) }
        = Builder.canonicalizeManifest m)
    ∧ (∀ m : Manifest,
      Builder.canonicalizeManifest m =
        String.mk (renderCanonicalChars m.version m.timestamp
          (enumOrder (sortedEntries m)))
      ∧ ((enumOrder (sortedEntries m)).map Prod.fst).Perm (m.resources.map Prod.fst)
      ∧ List.Sorted numKeyLe
          ((enumOrder (sortedEntries m)).filter fun e => isArrayIndex e.1)
      ∧ List.Sorted jsLe
          (((enumOrder (sortedEntries m)).filter fun e => !isArrayIndex e.1).map
            Prod.fst)
      ∧ ((∀ k ∈ m.resources.map Prod.fst, isArrayIndex k = false) →
          List.Sorted jsLe ((enumOrder (sortedEntries m)).map Prod.fst))) := by
  refine ⟨?_, ?_, ?_, ?_⟩
  · intro m₁ m₂ hv ht hp hnd
    have hkeys : (m₁.resources.map Prod.fst).Perm (m₂.resources.map Prod.fst) := by
      have := hp.map Prod.fst
      rwa [map_fst_resProj, map_fst_resProj] at this
    have hsort : List.insertionSort jsLe (m₁.resources.map Prod.fst) =
        List.insertionSort jsLe (m₂.resources.map Prod.fst) :=
      insertionSort_eq_of_perm hkeys
    have hnd1 : ((m₁.resources.map resProj).map Prod.fst).Nodup := by
      rwa [map_fst_resProj]
    have hlook : ∀ k, canonicalEntry m₁.resources k = canonicalEntry m₂.resources k := by
      intro k
      exact canonicalEntry_eq_of_lookup_map k (lookup_eq_of_perm hp hnd1 k)
    unfold Builder.canonicalizeManifest
    dsimp only
    rw [hv, ht, hsort]
    exact congrArg (fun es => String.mk
      (renderCanonicalChars m₂.version m₂.timestamp (enumOrder es)))
      (List.map_congr_left fun k _ => hlook k)
  · intro m s p
    rfl
  · intro m g
    have hkeys : (m.resources.map fun kv =>
        (kv.1, { kv.2 with urls := g kv.1 })).map Prod.fst = m.resources.map Prod.fst := by
      simp only [List.map_map]
      rfl
    have hproj : ((m.resources.map fun kv =>
        (kv.1, { kv.2 with urls := g kv.1 })).map resProj) = m.resources.map resProj := by
      simp only [List.map_map]
      rfl
    have hlook : ∀ k, canonicalEntry (m.resources.map fun kv =>
        (kv.1, { kv.2 with urls := g kv.1 })) k = canonicalEntry m.resources k := by
      intro k
      apply canonicalEntry_eq_of_lookup_map
      rw [hproj]
    unfold Builder.canonicalizeManifest
    dsimp only
    rw [hkeys]
    exact congrArg (fun es => String.mk
      (renderCanonicalChars m.version m.timestamp (enumOrder es)))
      (List.map_congr_left fun k _ => hlook k)
  · intro m
    refine ⟨rfl, ?_, ?_, ?_, ?_⟩
    · have hp1 : ((enumOrder (sortedEntries m)).map Prod.fst).Perm
          ((sortedEntries m).map Prod.fst) := (enumOrder_perm _).map Prod.fst
      rw [sortedEntries_map_fst] at hp1
      exact hp1.trans (List.perm_insertionSort jsLe _)
    · rw [enumOrder_filter_idx]
      exact List.sorted_insertionSort numKeyLe _
    · rw [enumOrder_filter_str]
      exact List.Pairwise.map Prod.fst (fun a b h => h)
        ((sortedEntries_sorted_key m).filter _)
    · intro hnone
      have hall : ∀ e ∈ sortedEntries m, isArrayIndex e.1 = false := fun e he =>
        hnone e.1 (mem_sortedEntries_key he)
      have hidx : (sortedEntries m).filter (fun e => isArrayIndex e.1) = [] := by
        apply List.filter_eq_nil_iff.mpr
        intro a ha
        simp [hall a ha]
      have hstr : (sortedEntries m).filter (fun e => !isArrayIndex e.1) =
          sortedEntries m := by
        apply List.filter_eq_self.mpr
        intro a ha
        simp [hall a ha]
      have hE : enumOrder (sortedEntries m) = sortedEntries m := by
        unfold enumOrder
        rw [hidx, hstr]
        rfl
      rw [hE, sortedEntries_map_fst]
      exact List.sorted_insertionSort jsLe _

/-- C6 counterexample: resource paths that are canonical array-index keys
("9" and "10") are emitted by JSON.stringify in ascending numeric order,
so the actual canonical output lists "9" before "10" although "10"
precedes "9" in the lexicographic string order; decoding the canonical
bytes exhibits the emitted key order. -/
theorem claim_C6_counterexample :
    (Canon.decodeCanonical (Builder.canonicalizeManifest
        { version := "1", timestamp := "T",
          resources := [("10", { hash := "sha256-aa", size := 1 }),
                        ("9", { hash := "sha256-bb", size := 2 })] }).data
      = some ("1", "T", [("9", "sha256-bb", 2), ("10", "sha256-aa", 1)]))
    ∧ ¬ jsLe "9" "10"
    ∧ jsLe "10" "9"
    ∧ ¬ List.Sorted jsLe ["9", "10"] := by
  refine ⟨?_, by decide, by decide, ?_⟩
  · have hE : enumOrder (sortedEntries
        { version := "1", timestamp := "T",
          resources := [("10", { hash := "sha256-aa", size := 1 }),
                        ("9", { hash := "sha256-bb", size := 2 })] }) =
        [("9", "sha256-bb", 2), ("10", "sha256-aa", 1)] := by decide
    have hr := Canon.decodeCanonical_roundtrip "1" "T"
      (enumOrder (sortedEntries
        { version := "1", timestamp := "T",
          resources := [("10", { hash := "sha256-aa", size := 1 }),
                        ("9", { hash := "sha256-bb", size := 2 })] }))
    rw [hE] at hr
    exact hr
  · intro hs
    exact absurd (List.rel_of_sorted_cons hs "10" (by decide)) (by decide)

/-- Witness for C6 at concrete manifests differing in field order, urls,
signature and publicKey. -/
theorem claim_C6_witness :
    Builder.canonicalizeManifest
      { version := "1.0.0", timestamp := "2026-01-01T00:00:00.000Z",
        resources := [("/b.css", { hash := "sha256-bb", size := 3 }),
                      ("/a.js", { hash := "sha256-aa", size := 2,
                                  urls := some ["https://cdn.example/a.js"] })],
        signature := some "deadbeef", publicKey := some "attacker-key" } =
    Builder.canonicalizeManifest
      { version := "1.0.0", timestamp := "2026-01-01T00:00:00.000Z",
        resources := [("/a.js", { hash := "sha256-aa", size := 2 }),
                      ("/b.css", { hash := "sha256-bb", size := 3 })] } :=
  claim_C6_canonicalize_deterministic.1 _ _ rfl rfl (by decide) (by decide)

end Markproof
namespace Markproof

/-- The two canonicalizers agree (shared helper; claim C1 restates it). -/
theorem canonical_build_eq_rt (m : Manifest) :
    Builder.canonicalizeManifest m = Bootstrap.canonicalizeManifest m := by
  unfold Builder.canonicalizeManifest Bootstrap.canonicalizeManifest
  dsimp only
  rw [foldl_append_singleton_eq_map]
  simp

/-- The runtime verifier, re-expressed over the build-side canonicalizer
(legitimate by `canonical_build_eq_rt`). -/
theorem verifyManifest_spec (E : EdScheme) (m : Manifest) (pub : String) :
    Bootstrap.verifyManifest E m pub =
      if m.version = "" ∨ ¬ Bootstrap.jsTruthy m.signature then
        .error "Invalid manifest structure"
      else if E.verify pub ((m.signature).getD "") (Builder.canonicalizeManifest m) then
        .ok m
      else
        .error "Manifest signature verification failed" := by
  unfold Bootstrap.verifyManifest
  rw [canonical_build_eq_rt]

instance {ε α : Type} [DecidableEq ε] [DecidableEq α] : DecidableEq (Except ε α) := fun a b =>
  match a, b with
  | .ok x, .ok y =>
    if h : x = y then isTrue (by rw [h]) else isFalse (by simp [h])
  | .error x, .error y =>
    if h : x = y then isTrue (by rw [h]) else isFalse (by simp [h])
  | .ok _, .error _ => isFalse (by simp)
  | .error _, .ok _ => isFalse (by simp)

/-- C3 (amended).  With an ideal deterministic Ed25519 scheme producing
non-empty signatures: verifying a signed manifest succeeds under the
matching public key; fails under any other public key; and fails whenever
the signed portion of the resources (the sorted path/hash/size entries) or
the version or timestamp was altered after signing.  (Alterations confined
to urls fields are not detected — see the counterexample.) -/
theorem claim_C3_sign_verify_roundtrip (E : EdScheme) (hE : E.Ideal)
    (priv : String) (hsig : ∀ p d, E.sign p d ≠ "") (m : Manifest)
    (hv : m.version ≠ "") :
    (Bootstrap.verifyManifest E (Builder.signManifest E m priv) (E.pubOf priv) =
      .ok (Builder.signManifest E m priv))
    ∧ (∀ pub, pub ≠ E.pubOf priv →
      Bootstrap.verifyManifest E (Builder.signManifest E m priv) pub =
        .error "Manifest signature verification failed")
    ∧ (∀ m' : Manifest, m'.signature = (Builder.signManifest E m priv).signature →
      m'.version ≠ "" →
      (m'.version ≠ m.version ∨ m'.timestamp ≠ m.timestamp ∨
        sortedEntries m' ≠ sortedEntries m) →
      Bootstrap.verifyManifest E m' (E.pubOf priv) =
        .error "Manifest signature verification failed") := by
  have hcanon : Builder.canonicalizeManifest (Builder.signManifest E m priv) =
      Builder.canonicalizeManifest m := rfl
  have hver : (Builder.signManifest E m priv).version = m.version := rfl
  have hsigfield : (Builder.signManifest E m priv).signature =
      some (E.sign priv (Builder.canonicalizeManifest m)) := rfl
  have hstruct : ¬ ((Builder.signManifest E m priv).version = "" ∨
      ¬ Bootstrap.jsTruthy (Builder.signManifest E m priv).signature) := by
    rw [hver, hsigfield]
    simp only [Bootstrap.jsTruthy]
    push_neg
    refine ⟨hv, ?_⟩
    simp only [decide_eq_true_eq]
    exact hsig priv _
  refine ⟨?_, ?_, ?_⟩
  · rw [verifyManifest_spec, if_neg hstruct, if_pos]
    rw [hsigfield]
    simp only [Option.getD_some, hcanon]
    exact (hE.1 _ _ _).mpr ⟨priv, rfl, rfl⟩
  · intro pub hpub
    rw [verifyManifest_spec, if_neg hstruct, if_neg]
    rw [hsigfield]
    simp only [Option.getD_some, hcanon]
    intro hcontra
    obtain ⟨priv', hpub', hsig'⟩ := (hE.1 _ _ _).mp hcontra
    obtain ⟨hpp, _⟩ := hE.2 _ _ _ _ hsig'
    exact hpub (hpub' ▸ hpp.symm)
  · intro m' hms hv' hdiff
    have hcm : Builder.canonicalizeManifest m' ≠ Builder.canonicalizeManifest m := by
      intro he
      obtain ⟨h1, h2, h3⟩ := canonicalizeManifest_inj he
      rcases hdiff with h | h | h
      · exact h h1
      · exact h h2
      · exact h h3
    have hstruct' : ¬ (m'.version = "" ∨ ¬ Bootstrap.jsTruthy m'.signature) := by
      rw [hms, hsigfield]
      simp only [Bootstrap.jsTruthy]
      push_neg
      refine ⟨hv', ?_⟩
      simp only [decide_eq_true_eq]
      exact hsig priv _
    rw [verifyManifest_spec, if_neg hstruct', if_neg]
    rw [hms, hsigfield]
    simp only [Option.getD_some]
    intro hcontra
    obtain ⟨priv', _, hsig'⟩ := (hE.1 _ _ _).mp hcontra
    obtain ⟨_, hdd⟩ := hE.2 _ _ _ _ hsig'
    exact hcm hdd.symm

/-- Witness for C3 at the toy ideal scheme and a concrete manifest:
round trip succeeds, a wrong key fails, and a hash alteration fails. -/
theorem claim_C3_witness :
    (Bootstrap.verifyManifest toyEd
      (Builder.signManifest toyEd
        { version := "1.0.0", timestamp := "T",
          resources := [("/a.js", { hash := "sha256-aa", size := 2 })] } "K1")
      (toyEd.pubOf "K1") =
      .ok (Builder.signManifest toyEd
        { version := "1.0.0", timestamp := "T",
          resources := [("/a.js", { hash := "sha256-aa", size := 2 })] } "K1"))
    ∧ (Bootstrap.verifyManifest toyEd
      (Builder.signManifest toyEd
        { version := "1.0.0", timestamp := "T",
          resources := [("/a.js", { hash := "sha256-aa", size := 2 })] } "K1")
      (toyEd.pubOf "K2") =
        .error "Manifest signature verification failed")
    ∧ (Bootstrap.verifyManifest toyEd
      { version := "1.0.0", timestamp := "T",
        resources := [("/a.js", { hash := "sha256-bb", size := 2 })],
        signature := (Builder.signManifest toyEd
          { version := "1.0.0", timestamp := "T",
            resources := [("/a.js", { hash := "sha256-aa", size := 2 })] } "K1").signature }
      (toyEd.pubOf "K1") =
        .error "Manifest signature verification failed") := by
  have h := claim_C3_sign_verify_roundtrip toyEd toyEd_ideal "K1" toyEd_sign_ne_empty
    { version := "1.0.0", timestamp := "T",
      resources := [("/a.js", { hash := "sha256-aa", size := 2 })] } (by decide)
  refine ⟨h.1, h.2.1 (toyEd.pubOf "K2") (by decide), h.2.2 _ rfl (by decide) ?_⟩
  right; right
  decide

/-- C3 counterexample: altering a byte inside `M.resources` — in a `urls`
entry — after signing is NOT detected: the verifier still accepts, because
urls are excluded from the canonical form. -/
theorem claim_C3_counterexample_urls :
    (Bootstrap.verifyManifest toyEd
      { version := "1.0.0", timestamp := "T",
        resources := [("/a.js", { hash := "sha256-aa", size := 2,
                                  urls := some ["https://evil.example/a.js"] })],
        signature := (Builder.signManifest toyEd
          { version := "1.0.0", timestamp := "T",
            resources := [("/a.js", { hash := "sha256-aa", size := 2,
                                      urls := some ["https://cdn.example/a.js"] })] }
          "K1").signature }
      (toyEd.pubOf "K1") =
      .ok { version := "1.0.0", timestamp := "T",
            resources := [("/a.js", { hash := "sha256-aa", size := 2,
                                      urls := some ["https://evil.example/a.js"] })],
            signature := (Builder.signManifest toyEd
              { version := "1.0.0", timestamp := "T",
                resources := [("/a.js", { hash := "sha256-aa", size := 2,
                                          urls := some ["https://cdn.example/a.js"] })] }
              "K1").signature })
    ∧ (some ["https://evil.example/a.js"] : Option (List String)) ≠
        some ["https://cdn.example/a.js"] := by
  constructor
  · decide
  · decide

end Markproof
namespace Markproof

theorem fetchVerifyAll_fetch_congr {w w' : Bootstrap.World}
    (h : w.fetch = w'.fetch) (baseUrl : String) :
    ∀ (rs : List (String × ManifestResource)) (acc : List (String × String)),
    Bootstrap.fetchVerifyAll w baseUrl rs acc = Bootstrap.fetchVerifyAll w' baseUrl rs acc := by
  intro rs
  induction rs with
  | nil => intro acc; rfl
  | cons p ps ih =>
    intro acc
    obtain ⟨path, entry⟩ := p
    unfold Bootstrap.fetchVerifyAll Bootstrap.fetchResource
    rw [h]
    cases w'.fetch (baseUrl ++ path) with
    | none => rfl
    | some content =>
      by_cases hv : Bootstrap.verifyResource content entry.hash
      · simp only [hv, if_true, if_pos]
        exact ih _
      · simp only [hv, if_false, if_neg, Bool.false_eq_true]

theorem sigCheckStep_pk (E : EdScheme) (epk : String) (m : Manifest) (x : Option String) :
    Bootstrap.sigCheckStep E epk { m with publicKey := x } =
      (Bootstrap.sigCheckStep E epk m).map (fun _ => { m with publicKey := x }) := by
  unfold Bootstrap.sigCheckStep Bootstrap.verifyManifest
  dsimp only
  rw [show Bootstrap.canonicalizeManifest { m with publicKey := x } =
    Bootstrap.canonicalizeManifest m from rfl]
  split_ifs <;> rfl

theorem pinCheckStep_pk (cfg : Bootstrap.Config) (m : Manifest) (x : Option String) :
    Bootstrap.pinCheckStep cfg { m with publicKey := x } =
      (Bootstrap.pinCheckStep cfg m).map (fun _ => { m with publicKey := x }) := by
  unfold Bootstrap.pinCheckStep
  rw [show Bootstrap.canonicalizeManifest { m with publicKey := x } =
    Bootstrap.canonicalizeManifest m from rfl]
  split_ifs <;> rfl

theorem sigCheckStep_ok_eq {E : EdScheme} {epk : String} {m m' : Manifest}
    (h : Bootstrap.sigCheckStep E epk m = .ok m') : m' = m := by
  unfold Bootstrap.sigCheckStep Bootstrap.verifyManifest at h
  split_ifs at h <;> simp_all

theorem pinCheckStep_ok_eq {cfg : Bootstrap.Config} {m m' : Manifest}
    (h : Bootstrap.pinCheckStep cfg m = .ok m') : m' = m := by
  unfold Bootstrap.pinCheckStep at h
  split_ifs at h <;> simp_all

/-- C2.  The verifier's key comes exclusively from the build-time embedded
constant: the signature-check step consults the abstract `verify` oracle
only at the embedded key (two schemes agreeing at that key behave
identically), and an attacker-supplied `publicKey`-like field in the
fetched manifest has no effect on the whole run's outcome. -/
theorem claim_C2_embedded_key_only :
    (∀ (E E' : EdScheme) (epk : String) (m : Manifest),
      (∀ sig data, E.verify epk sig data = E'.verify epk sig data) →
      Bootstrap.sigCheckStep E epk m = Bootstrap.sigCheckStep E' epk m)
    ∧ (∀ (E : EdScheme) (cfg : Bootstrap.Config) (baseUrl : String)
        (w : Bootstrap.World) (m : Manifest) (x : Option String),
      Bootstrap.mainRun E cfg baseUrl
          { w with manifest := some { m with publicKey := x } } =
        Bootstrap.mainRun E cfg baseUrl { w with manifest := some m }) := by
  constructor
  · intro E E' epk m h
    unfold Bootstrap.sigCheckStep Bootstrap.verifyManifest
    rw [show E'.verify epk (m.signature.getD "") (Bootstrap.canonicalizeManifest m) =
      E.verify epk (m.signature.getD "") (Bootstrap.canonicalizeManifest m) from (h _ _).symm]
  · intro E cfg baseUrl w m x
    unfold Bootstrap.mainRun
    dsimp only
    rw [sigCheckStep_pk]
    cases hs : Bootstrap.sigCheckStep E cfg.embeddedPublicKey m with
    | error e => rfl
    | ok m1 =>
      have hm1 : m1 = m := sigCheckStep_ok_eq hs
      subst hm1
      simp only [Except.map]
      rw [pinCheckStep_pk]
      cases hp : Bootstrap.pinCheckStep cfg m1 with
      | error e => rfl
      | ok m2 =>
        have hm2 : m2 = m1 := pinCheckStep_ok_eq hp
        subst hm2
        simp only [Except.map]
        have hres : ({ m2 with publicKey := x } : Manifest).resources = m2.resources := rfl
        rw [hres]
        rw [fetchVerifyAll_fetch_congr
          (show ({ w with manifest := some { m2 with publicKey := x } } :
            Bootstrap.World).fetch = w.fetch from rfl) baseUrl m2.resources []]
        rw [fetchVerifyAll_fetch_congr
          (show ({ w with manifest := some m2 } : Bootstrap.World).fetch = w.fetch from rfl)
          baseUrl m2.resources []]
        cases hf : Bootstrap.fetchVerifyAll w baseUrl m2.resources [] with
        | error e => rfl
        | ok resources => rfl

/-- Witness for C2: a scheme accepting everything under a different key
gives the same result as the toy scheme (only the embedded key's row
matters), and a planted `publicKey` field does not change the outcome. -/
theorem claim_C2_witness :
    (Bootstrap.sigCheckStep toyEd "K"
        { version := "1.0.0", timestamp := "T",
          resources := [("/a.js", { hash := "sha256-aa", size := 2 })] } =
      Bootstrap.sigCheckStep
        { toyEd with verify := fun pub sig data =>
            if pub = "OTHER" then true else toyEd.verify pub sig data } "K"
        { version := "1.0.0", timestamp := "T",
          resources := [("/a.js", { hash := "sha256-aa", size := 2 })] })
    ∧ (Bootstrap.mainRun toyEd ⟨"K", "auto", ""⟩ "https://o"
        { manifest := some
            { version := "1.0.0", timestamp := "T",
              resources := [], publicKey := some "ATTACKER-KEY" },
          fetch := fun _ => none } =
      Bootstrap.mainRun toyEd ⟨"K", "auto", ""⟩ "https://o"
        { manifest := some
            { version := "1.0.0", timestamp := "T", resources := [] },
          fetch := fun _ => none }) := by
  constructor
  · exact claim_C2_embedded_key_only.1 toyEd
      { toyEd with verify := fun pub sig data =>
          if pub = "OTHER" then true else toyEd.verify pub sig data } "K"
      { version := "1.0.0", timestamp := "T",
        resources := [("/a.js", { hash := "sha256-aa", size := 2 })] }
      (by intro sig data; simp)
  · exact claim_C2_embedded_key_only.2 toyEd ⟨"K", "auto", ""⟩ "https://o"
      ⟨some { version := "1.0.0", timestamp := "T", resources := [] }, fun _ => none⟩
      { version := "1.0.0", timestamp := "T", resources := [] }
      (some "ATTACKER-KEY")

end Markproof
namespace Markproof

theorem fetchVerifyAll_ok_forall {w : Bootstrap.World} {baseUrl : String} :
    ∀ (rs : List (String × ManifestResource)) (acc out : List (String × String)),
    Bootstrap.fetchVerifyAll w baseUrl rs acc = .ok out →
    ∀ p ∈ rs, ∃ c, w.fetch (baseUrl ++ p.1) = some c ∧
      Bootstrap.verifyResource c p.2.hash = true := by
  intro rs
  induction rs with
  | nil => intro acc out _ p hp; simp at hp
  | cons q ps ih =>
    intro acc out h p hp
    obtain ⟨path, entry⟩ := q
    unfold Bootstrap.fetchVerifyAll Bootstrap.fetchResource at h
    cases hf : w.fetch (baseUrl ++ path) with
    | none => rw [hf] at h; exact absurd h (by simp)
    | some content =>
      rw [hf] at h
      dsimp only at h
      by_cases hv : Bootstrap.verifyResource content entry.hash
      · rw [if_pos hv] at h
        rcases List.mem_cons.mp hp with hph | hpt
        · subst hph
          exact ⟨content, hf, hv⟩
        · exact ih _ _ h p hpt
      · rw [if_neg hv] at h
        exact absurd h (by simp)

theorem fetchVerifyAll_ok_keys {w : Bootstrap.World} {baseUrl : String} :
    ∀ (rs : List (String × ManifestResource)) (acc out : List (String × String)),
    Bootstrap.fetchVerifyAll w baseUrl rs acc = .ok out →
    out.map Prod.fst = acc.map Prod.fst ++ rs.map Prod.fst := by
  intro rs
  induction rs with
  | nil =>
    intro acc out h
    unfold Bootstrap.fetchVerifyAll at h
    simp only [Except.ok.injEq] at h
    subst h
    simp
  | cons q ps ih =>
    intro acc out h
    obtain ⟨path, entry⟩ := q
    unfold Bootstrap.fetchVerifyAll Bootstrap.fetchResource at h
    cases hf : w.fetch (baseUrl ++ path) with
    | none => rw [hf] at h; exact absurd h (by simp)
    | some content =>
      rw [hf] at h
      dsimp only at h
      by_cases hv : Bootstrap.verifyResource content entry.hash
      · rw [if_pos hv] at h
        have := ih _ _ h
        simpa using this
      · rw [if_neg hv] at h
        exact absurd h (by simp)

theorem fetchVerifyAll_fails {w : Bootstrap.World} {baseUrl : String} :
    ∀ (rs : List (String × ManifestResource)) (acc : List (String × String)),
    (∃ p ∈ rs, ∀ c, w.fetch (baseUrl ++ p.1) = some c →
      Bootstrap.verifyResource c p.2.hash = false) →
    ∃ msg, Bootstrap.fetchVerifyAll w baseUrl rs acc = .error msg := by
  intro rs
  induction rs with
  | nil => intro acc h; simp at h
  | cons q ps ih =>
    intro acc h
    obtain ⟨path, entry⟩ := q
    unfold Bootstrap.fetchVerifyAll Bootstrap.fetchResource
    cases hf : w.fetch (baseUrl ++ path) with
    | none => exact ⟨_, rfl⟩
    | some content =>
      dsimp only
      by_cases hv : Bootstrap.verifyResource content entry.hash
      · rw [if_pos hv]
        obtain ⟨p, hp, hcond⟩ := h
        rcases List.mem_cons.mp hp with hph | hpt
        · subst hph
          have := hcond content hf
          rw [this] at hv
          exact absurd hv (by simp)
        · exact ih _ ⟨p, hpt, hcond⟩
      · rw [if_neg hv]
        exact ⟨_, rfl⟩

theorem fetchVerifyAll_agree {w w' : Bootstrap.World} {baseUrl : String} :
    ∀ (rs : List (String × ManifestResource)) (acc : List (String × String)),
    (∀ p ∈ rs, w'.fetch (baseUrl ++ p.1) = w.fetch (baseUrl ++ p.1)) →
    Bootstrap.fetchVerifyAll w' baseUrl rs acc = Bootstrap.fetchVerifyAll w baseUrl rs acc := by
  intro rs
  induction rs with
  | nil => intro acc _; rfl
  | cons q ps ih =>
    intro acc h
    obtain ⟨path, entry⟩ := q
    unfold Bootstrap.fetchVerifyAll Bootstrap.fetchResource
    rw [h (path, entry) (by simp)]
    cases w.fetch (baseUrl ++ path) with
    | none => rfl
    | some content =>
      by_cases hv : Bootstrap.verifyResource content entry.hash
      · simp only [hv, if_true, if_pos]
        exact ih _ (fun p hp => h p (by simp [hp]))
      · simp only [hv, if_false, if_neg, Bool.false_eq_true]

/-- C4.  The bootstrap renders only after every resource listed in the
verified manifest has been fetched from its primary location and
hash-verified (and the rendered page is injectApp applied to contents at
exactly the listed paths); any hash mismatch or fetch failure on any listed
resource yields an error display and no rendering; and the run never
consults the fetch oracle outside the listed paths (worlds agreeing there
agree on the outcome). -/
theorem claim_C4_render_gated (E : EdScheme) (cfg : Bootstrap.Config)
    (baseUrl : String) (w : Bootstrap.World) (m : Manifest)
    (hm : w.manifest = some m) :
    (∀ page, Bootstrap.mainRun E cfg baseUrl w = .rendered page →
      (∀ p ∈ m.resources, ∃ c, w.fetch (baseUrl ++ p.1) = some c ∧
        Bootstrap.verifyResource c p.2.hash = true)
      ∧ ∃ resources, resources.map Prod.fst = m.resources.map Prod.fst ∧
          page = Bootstrap.injectApp resources m)
    ∧ ((∃ p ∈ m.resources, ∀ c, w.fetch (baseUrl ++ p.1) = some c →
        Bootstrap.verifyResource c p.2.hash = false) →
      ∃ msg, Bootstrap.mainRun E cfg baseUrl w = .failed msg)
    ∧ (∀ w' : Bootstrap.World, w'.manifest = some m →
      (∀ p ∈ m.resources, w'.fetch (baseUrl ++ p.1) = w.fetch (baseUrl ++ p.1)) →
      Bootstrap.mainRun E cfg baseUrl w' = Bootstrap.mainRun E cfg baseUrl w) := by
  refine ⟨?_, ?_, ?_⟩
  · intro page hrun
    unfold Bootstrap.mainRun at hrun
    rw [hm] at hrun
    dsimp only at hrun
    cases hs : Bootstrap.sigCheckStep E cfg.embeddedPublicKey m with
    | error e => rw [hs] at hrun; exact absurd hrun (by simp)
    | ok m1 =>
      rw [hs] at hrun
      dsimp only at hrun
      have hm1 : m1 = m := sigCheckStep_ok_eq hs
      subst hm1
      cases hp : Bootstrap.pinCheckStep cfg m1 with
      | error e => rw [hp] at hrun; exact absurd hrun (by simp)
      | ok m2 =>
        rw [hp] at hrun
        dsimp only at hrun
        have hm2 : m2 = m1 := pinCheckStep_ok_eq hp
        subst hm2
        cases hf : Bootstrap.fetchVerifyAll w baseUrl m2.resources [] with
        | error e => rw [hf] at hrun; exact absurd hrun (by simp)
        | ok resources =>
          rw [hf] at hrun
          dsimp only at hrun
          simp only [Bootstrap.Outcome.rendered.injEq] at hrun
          refine ⟨fetchVerifyAll_ok_forall _ _ _ hf, resources, ?_, hrun.symm⟩
          have := fetchVerifyAll_ok_keys _ _ _ hf
          simpa using this
  · intro hfail
    unfold Bootstrap.mainRun
    rw [hm]
    dsimp only
    cases hs : Bootstrap.sigCheckStep E cfg.embeddedPublicKey m with
    | error e => exact ⟨_, rfl⟩
    | ok m1 =>
      dsimp only
      have hm1 : m1 = m := sigCheckStep_ok_eq hs
      subst hm1
      cases hp : Bootstrap.pinCheckStep cfg m1 with
      | error e => exact ⟨_, rfl⟩
      | ok m2 =>
        dsimp only
        have hm2 : m2 = m1 := pinCheckStep_ok_eq hp
        subst hm2
        obtain ⟨msg, hmsg⟩ := fetchVerifyAll_fails m2.resources [] hfail
        rw [hmsg]
        exact ⟨_, rfl⟩
  · intro w' hm' hagree
    unfold Bootstrap.mainRun
    rw [hm, hm']
    dsimp only
    cases hs : Bootstrap.sigCheckStep E cfg.embeddedPublicKey m with
    | error e => rfl
    | ok m1 =>
      dsimp only
      have hm1 : m1 = m := sigCheckStep_ok_eq hs
      subst hm1
      cases hp : Bootstrap.pinCheckStep cfg m1 with
      | error e => rfl
      | ok m2 =>
        dsimp only
        have hm2 : m2 = m1 := pinCheckStep_ok_eq hp
        subst hm2
        rw [fetchVerifyAll_agree m2.resources [] hagree]

/-- Witness for C4: a world with a correct resource renders it, and a world
with a hash mismatch on the listed resource fails. -/
theorem claim_C4_witness :
    ((Bootstrap.mainRun toyEd ⟨"", "auto", ""⟩ "https://o"
        { manifest := some
            { version := "1.0.0", timestamp := "T",
              resources := [("/a.js",
                { hash := "sha256-ca978112ca1bbdcafac231b39a23dc4da786eff8147c4e72b9807785afee48bb",
                  size := 1 })] },
          fetch := fun u => if u = "https://o/a.js" then some "a" else none } =
      .rendered { styles := [], htmlContent := "", scripts := ["a"] }))
    ∧ (∃ msg, Bootstrap.mainRun toyEd ⟨"", "auto", ""⟩ "https://o"
        { manifest := some
            { version := "1.0.0", timestamp := "T",
              resources := [("/a.js", { hash := "sha256-00", size := 1 })] },
          fetch := fun u => if u = "https://o/a.js" then some "a" else none } =
        .failed msg) := by
  constructor
  · decide
  · exact (claim_C4_render_gated toyEd ⟨"", "auto", ""⟩ "https://o"
      { manifest := some
          { version := "1.0.0", timestamp := "T",
            resources := [("/a.js", { hash := "sha256-00", size := 1 })] },
        fetch := fun u => if u = "https://o/a.js" then some "a" else none }
      { version := "1.0.0", timestamp := "T",
        resources := [("/a.js", { hash := "sha256-00", size := 1 })] } rfl).2.1
      ⟨("/a.js", { hash := "sha256-00", size := 1 }), by decide, by decide⟩

end Markproof
namespace Markproof

/-- C5 (amended).  Locked-mode pin behaviour, provided the pinned digest is
non-empty: a signature-valid manifest whose recomputed canonical-form
SHA-256 digest differs from the pinned digest is rejected with the
pin-mismatch failure (step level and whole-run level); an identical digest
passes the pin check; in auto mode the pin check is skipped entirely.
(With an empty pinned digest the check is skipped even in locked mode —
see the counterexample and claim C10.) -/
theorem claim_C5_locked_pin (cfg : Bootstrap.Config) (m : Manifest) :
    (cfg.updateMode = "locked" → cfg.manifestHash ≠ "" →
      sha256hex (Bootstrap.canonicalizeManifest m) ≠ cfg.manifestHash →
      Bootstrap.pinCheckStep cfg m =
        .error ("Locked mode: manifest hash mismatch. Expected: " ++ cfg.manifestHash
          ++ ", got: " ++ sha256hex (Bootstrap.canonicalizeManifest m)))
    ∧ (cfg.updateMode = "locked" → cfg.manifestHash ≠ "" →
      sha256hex (Bootstrap.canonicalizeManifest m) = cfg.manifestHash →
      Bootstrap.pinCheckStep cfg m = .ok m)
    ∧ (cfg.updateMode = "auto" → Bootstrap.pinCheckStep cfg m = .ok m)
    ∧ (∀ (E : EdScheme) (baseUrl : String) (w : Bootstrap.World),
      cfg.updateMode = "locked" → cfg.manifestHash ≠ "" →
      w.manifest = some m →
      Bootstrap.sigCheckStep E cfg.embeddedPublicKey m = .ok m →
      sha256hex (Bootstrap.canonicalizeManifest m) ≠ cfg.manifestHash →
      Bootstrap.mainRun E cfg baseUrl w =
        .failed ("Bootstrap failed: " ++ ("Locked mode: manifest hash mismatch. Expected: "
          ++ cfg.manifestHash ++ ", got: "
          ++ sha256hex (Bootstrap.canonicalizeManifest m)))) := by
  refine ⟨?_, ?_, ?_, ?_⟩
  · intro hl hp hne
    unfold Bootstrap.pinCheckStep
    rw [if_pos ⟨hl, hp⟩, if_neg hne]
  · intro hl hp heq
    unfold Bootstrap.pinCheckStep
    rw [if_pos ⟨hl, hp⟩, if_pos heq]
  · intro ha
    unfold Bootstrap.pinCheckStep
    rw [if_neg]
    intro hcontra
    rw [ha] at hcontra
    exact absurd hcontra.1 (by decide)
  · intro E baseUrl w hl hp hm hs hne
    unfold Bootstrap.mainRun
    rw [hm]
    dsimp only
    rw [hs]
    dsimp only
    have hpin : Bootstrap.pinCheckStep cfg m =
        .error ("Locked mode: manifest hash mismatch. Expected: " ++ cfg.manifestHash
          ++ ", got: " ++ sha256hex (Bootstrap.canonicalizeManifest m)) := by
      unfold Bootstrap.pinCheckStep
      rw [if_pos ⟨hl, hp⟩, if_neg hne]
    rw [hpin]

/-- Witness for C5: a locked configuration pinned to a digest other than
the manifest's canonical digest rejects at the pin-check step, and the pin
check passes in auto mode. -/
theorem claim_C5_witness :
    (Bootstrap.pinCheckStep ⟨"K", "locked", "ffff"⟩
        { version := "1.0.0", timestamp := "T", resources := [] } =
      .error ("Locked mode: manifest hash mismatch. Expected: " ++ "ffff" ++ ", got: "
        ++ sha256hex (Bootstrap.canonicalizeManifest
          { version := "1.0.0", timestamp := "T", resources := [] })))
    ∧ (Bootstrap.pinCheckStep ⟨"K", "auto", "ffff"⟩
        { version := "1.0.0", timestamp := "T", resources := [] } =
      .ok { version := "1.0.0", timestamp := "T", resources := [] }) :=
  ⟨(claim_C5_locked_pin ⟨"K", "locked", "ffff"⟩
      { version := "1.0.0", timestamp := "T", resources := [] }).1 rfl (by decide) (by decide),
   (claim_C5_locked_pin ⟨"K", "auto", "ffff"⟩
      { version := "1.0.0", timestamp := "T", resources := [] }).2.2.1 rfl⟩

/-- C5 counterexample: in locked mode with an empty pinned digest, a
signature-valid manifest whose canonical digest differs from the pinned
value (any digest differs from the empty string) is NOT rejected — the run
renders. -/
theorem claim_C5_counterexample_empty_pin :
    (Bootstrap.mainRun toyEd ⟨"K", "locked", ""⟩ "https://o"
        { manifest := some (Builder.signManifest toyEd
            { version := "1.0.0", timestamp := "T", resources := [] } "K"),
          fetch := fun _ => none } =
      .rendered { styles := [], htmlContent := "", scripts := [] })
    ∧ sha256hex (Bootstrap.canonicalizeManifest (Builder.signManifest toyEd
        { version := "1.0.0", timestamp := "T", resources := [] } "K")) ≠ "" := by
  constructor
  · decide
  · decide

/-- C7 (amended).  No size pre-check exists: `verifyResource` accepts
exactly when the recomputed SHA-256 digest equals the tag-stripped declared
hash — the fetched byte length is never compared to the declared size, and
the whole resource fetch/verify phase is invariant under arbitrary changes
to the declared sizes. -/
theorem claim_C7_no_size_precheck :
    (∀ content expectedHash : String,
      Bootstrap.verifyResource content expectedHash = true ↔
        sha256hex content = Bootstrap.stripSha256Tag expectedHash)
    ∧ (∀ (w : Bootstrap.World) (baseUrl : String)
        (rs : List (String × ManifestResource)) (acc : List (String × String))
        (f : String → Nat → Nat),
      Bootstrap.fetchVerifyAll w baseUrl
        (rs.map fun kv => (kv.1, { kv.2 with size := f kv.1 kv.2.size })) acc =
      Bootstrap.fetchVerifyAll w baseUrl rs acc) := by
  constructor
  · intro content expectedHash
    unfold Bootstrap.verifyResource
    exact decide_eq_true_iff
  · intro w baseUrl rs
    induction rs with
    | nil => intro acc f; rfl
    | cons q ps ih =>
      intro acc f
      obtain ⟨path, entry⟩ := q
      simp only [List.map_cons]
      unfold Bootstrap.fetchVerifyAll
      dsimp only
      cases Bootstrap.fetchResource w baseUrl path with
      | none => rfl
      | some content =>
        dsimp only
        by_cases hv : Bootstrap.verifyResource content entry.hash
        · rw [if_pos hv, if_pos hv]
          exact ih _ _
        · rw [if_neg hv, if_neg hv]

/-- C7 counterexample: a resource whose declared size (999) differs from
its fetched byte length (1) is accepted, because only the hash is checked. -/
theorem claim_C7_counterexample :
    (Bootstrap.fetchVerifyAll
        { manifest := none,
          fetch := fun u => if u = "https://o/x.txt" then some "x" else none }
        "https://o"
        [("/x.txt", { hash := "sha256-" ++ sha256hex "x", size := 999 })] [] =
      .ok [("/x.txt", "x")])
    ∧ (utf8Bytes "x").length = 1 ∧ (1 : Nat) ≠ 999 := by
  refine ⟨by decide, by decide, by decide⟩

end Markproof
namespace Markproof

/-- C8 (amended).  The runtime resource fetcher never consults the `urls`
field: the fetch/verify phase is invariant under arbitrary changes to urls
entries; it queries the fetch oracle only at the single primary location
(content base URL + path) of each listed resource; and a fetch failure at
the primary location of a resource fails the phase outright, regardless of
any mirrors listed in `urls`. -/
theorem claim_C8_no_urls_fallback :
    (∀ (w : Bootstrap.World) (baseUrl : String)
        (rs : List (String × ManifestResource)) (acc : List (String × String))
        (g : String → Option (List String)),
      Bootstrap.fetchVerifyAll w baseUrl
        (rs.map fun kv => (kv.1, { kv.2 with urls := g kv.1 })) acc =
      Bootstrap.fetchVerifyAll w baseUrl rs acc)
    ∧ (∀ (w w' : Bootstrap.World) (baseUrl : String)
        (rs : List (String × ManifestResource)) (acc : List (String × String)),
      (∀ p ∈ rs, w'.fetch (baseUrl ++ p.1) = w.fetch (baseUrl ++ p.1)) →
      Bootstrap.fetchVerifyAll w' baseUrl rs acc = Bootstrap.fetchVerifyAll w baseUrl rs acc)
    ∧ (∀ (w : Bootstrap.World) (baseUrl path : String) (entry : ManifestResource)
        (acc : List (String × String)),
      w.fetch (baseUrl ++ path) = none →
      Bootstrap.fetchVerifyAll w baseUrl [(path, entry)] acc =
        .error ("Resource fetch failed: " ++ path)) := by
  refine ⟨?_, ?_, ?_⟩
  · intro w baseUrl rs
    induction rs with
    | nil => intro acc g; rfl
    | cons q ps ih =>
      intro acc g
      obtain ⟨path, entry⟩ := q
      simp only [List.map_cons]
      unfold Bootstrap.fetchVerifyAll
      dsimp only
      cases Bootstrap.fetchResource w baseUrl path with
      | none => rfl
      | some content =>
        dsimp only
        by_cases hv : Bootstrap.verifyResource content entry.hash
        · rw [if_pos hv, if_pos hv]
          exact ih _ _
        · rw [if_neg hv, if_neg hv]
  · intro w w' baseUrl rs acc h
    exact fetchVerifyAll_agree rs acc h
  · intro w baseUrl path entry acc hf
    unfold Bootstrap.fetchVerifyAll Bootstrap.fetchResource
    rw [hf]

/-- Witness for C8 at a concrete world: only the primary location is read. -/
theorem claim_C8_witness :
    Bootstrap.fetchVerifyAll
      { manifest := none, fetch := fun _ => none } "https://o"
      [("/x.txt", { hash := "sha256-aa", size := 1,
                    urls := some ["https://mirror.example/x.txt"] })] [] =
      .error ("Resource fetch failed: " ++ "/x.txt") :=
  claim_C8_no_urls_fallback.2.2
    { manifest := none, fetch := fun _ => none } "https://o" "/x.txt"
    { hash := "sha256-aa", size := 1, urls := some ["https://mirror.example/x.txt"] }
    [] rfl

/-- C8 counterexample: the primary fetch fails while a mirror listed in
`urls` would serve correct content; the checker reports the resource as
missing anyway — no fallback to the alternate location is attempted. -/
theorem claim_C8_counterexample :
    (Bootstrap.fetchVerifyAll
        { manifest := none,
          fetch := fun u => if u = "https://mirror.example/x.txt" then some "x" else none }
        "https://o"
        [("/x.txt", { hash := "sha256-" ++ sha256hex "x", size := 1,
                      urls := some ["https://mirror.example/x.txt"] })] [] =
      .error ("Resource fetch failed: /x.txt"))
    ∧ ((fun u => if u = "https://mirror.example/x.txt" then some "x" else none)
        "https://mirror.example/x.txt" = some "x")
    ∧ Bootstrap.verifyResource "x" ("sha256-" ++ sha256hex "x") = true := by
  refine ⟨by decide, by decide, by decide⟩

theorem str_eq_of_data {a b : String} (h : a.data = b.data) : a = b := by
  cases a; cases b; exact congrArg String.mk h

theorem str_data_append (a b : String) : (a ++ b).data = a.data ++ b.data := by
  cases a; cases b; rfl

/-- C9 (amended).  The trust-anchor script tag carries the `data-hash`
attribute exactly when the supplied manifest hash is non-empty — the update
mode has no influence on it: in auto mode with a non-empty manifest hash
the digest IS embedded (contrary to the original claim), and with an empty
manifest hash the anchor consists of exactly the fixed parts with no
data-hash segment. -/
theorem claim_C9_data_hash_iff (u h mode mh : String) :
    (mh ≠ "" → ∃ pre post,
      Bookmarklet.buildBookmarkletHtml u h mode mh = pre ++ (" data-hash=" ++ mh) ++ post)
    ∧ (Bookmarklet.buildBookmarkletHtml u h mode "" =
      "<script src=" ++ u ++ " integrity=sha256-" ++ h ++ " crossorigin=anonymous"
        ++ (if mode = "locked" then " data-mode=locked" else "")
        ++ " onerror=document.body.innerHTML='Secure\\x20app\\x20load\\x20failed.'></script>") := by
  constructor
  · intro hmh
    refine ⟨"<script src=" ++ u ++ " integrity=sha256-" ++ h ++ " crossorigin=anonymous"
      ++ (if mode = "locked" then " data-mode=locked" else ""),
      " onerror=document.body.innerHTML='Secure\\x20app\\x20load\\x20failed.'></script>", ?_⟩
    unfold Bookmarklet.buildBookmarkletHtml
    dsimp only
    rw [if_pos hmh]
    split_ifs <;> (apply str_eq_of_data; simp [str_data_append])
  · unfold Bookmarklet.buildBookmarkletHtml
    dsimp only
    rw [if_neg (by simp)]
    split_ifs <;> (apply str_eq_of_data; simp [str_data_append])

/-- Witness for C9 (amended) at concrete inputs: auto mode with a non-empty
manifest hash embeds the digest. -/
theorem claim_C9_witness :
    ∃ pre post, Bookmarklet.buildBookmarkletHtml
      "https://x.test/bootstrap.js" "HB" "auto" "abc" =
      pre ++ (" data-hash=" ++ "abc") ++ post :=
  (claim_C9_data_hash_iff "https://x.test/bootstrap.js" "HB" "auto" "abc").1 (by decide)

set_option maxRecDepth 8192 in
/-- C9 counterexample: with updateMode auto and a non-empty manifest hash,
the generated anchor DOES contain the manifest digest (`data-hash=abc`),
contradicting the claim that auto-mode anchors carry no digest; the full
data-URL anchor is the base64 wrapping of that very tag. -/
theorem claim_C9_counterexample :
    (Bookmarklet.buildBookmarkletHtml "https://x.test/bootstrap.js" "HB" "auto" "abc" =
      "<script src=https://x.test/bootstrap.js integrity=sha256-HB crossorigin=anonymous"
        ++ " data-hash=abc"
        ++ " onerror=document.body.innerHTML='Secure\\x20app\\x20load\\x20failed.'></script>")
    ∧ (Bookmarklet.generateBookmarklet
        { originUrl := "https://x.test", bootstrapUrl := "https://x.test/bootstrap.js",
          bootstrapHashBase64 := "HB", updateMode := some "auto", manifestHash := some "abc" } =
      "data:text/html;base64," ++ String.mk (Bookmarklet.base64Chars (utf8Bytes
        (Bookmarklet.buildBookmarkletHtml "https://x.test/bootstrap.js" "HB" "auto" "abc")))) := by
  constructor
  · decide
  · rfl

/-- C10.  With update mode locked but an empty pinned digest, the locked
pin check is skipped entirely: the whole run is identical to an auto-mode
run for every scheme, key and world; and the bookmarklet generator can
produce exactly such an anchor — locked mode with an empty manifest hash
yields a tag with `data-mode=locked` and no `data-hash` attribute. -/
theorem claim_C10_locked_empty_pin :
    (∀ (E : EdScheme) (epk baseUrl : String) (w : Bootstrap.World),
      Bootstrap.mainRun E ⟨epk, "locked", ""⟩ baseUrl w =
        Bootstrap.mainRun E ⟨epk, "auto", ""⟩ baseUrl w)
    ∧ (∀ u h : String, Bookmarklet.buildBookmarkletHtml u h "locked" "" =
      ("<script src=" ++ u ++ " integrity=sha256-" ++ h ++ " crossorigin=anonymous"
        ++ " data-mode=locked")
        ++ " onerror=document.body.innerHTML='Secure\\x20app\\x20load\\x20failed.'></script>")
    ∧ (∀ opts : Bookmarklet.BookmarkletOptions, opts.updateMode = some "locked" →
      opts.manifestHash = none →
      Bookmarklet.generateBookmarklet opts = "data:text/html;base64," ++
        String.mk (Bookmarklet.base64Chars (utf8Bytes
          (Bookmarklet.buildBookmarkletHtml opts.bootstrapUrl opts.bootstrapHashBase64
            "locked" "")))) := by
  refine ⟨?_, ?_, ?_⟩
  · intro E epk baseUrl w
    unfold Bootstrap.mainRun
    cases hm : w.manifest with
    | none => rfl
    | some m =>
      dsimp only
      cases hs : Bootstrap.sigCheckStep E epk m with
      | error e => rfl
      | ok m1 =>
        dsimp only
        rw [show Bootstrap.pinCheckStep ⟨epk, "locked", ""⟩ m1 = .ok m1 from rfl,
            show Bootstrap.pinCheckStep ⟨epk, "auto", ""⟩ m1 = .ok m1 from rfl]
  · intro u h
    unfold Bookmarklet.buildBookmarkletHtml
    dsimp only
    rw [if_pos rfl, if_neg (by simp)]
  · intro opts hmode hhash
    unfold Bookmarklet.generateBookmarklet
    rw [hmode, hhash]
    rfl

/-- Witness for C10's generator conjunct at a concrete locked, hash-less
anchor. -/
theorem claim_C10_witness :
    Bookmarklet.generateBookmarklet
      { originUrl := "https://x.test", bootstrapUrl := "https://x.test/bootstrap.js",
        bootstrapHashBase64 := "HB", updateMode := some "locked", manifestHash := none } =
      "data:text/html;base64," ++ String.mk (Bookmarklet.base64Chars (utf8Bytes
        (Bookmarklet.buildBookmarkletHtml "https://x.test/bootstrap.js" "HB" "locked" ""))) :=
  claim_C10_locked_empty_pin.2.2
    { originUrl := "https://x.test", bootstrapUrl := "https://x.test/bootstrap.js",
      bootstrapHashBase64 := "HB", updateMode := some "locked", manifestHash := none }
    rfl rfl

end Markproof
